import Mathlib

/-!
Verification of the call-graph / points-to core of the kernel-analyzer
repository (src/lib/CallGraph.cc and the contracts it depends on).

The development shallowly embeds the data model and the operations of
CallGraphPass: the LLVM type fragment inspected by isCompatibleType, the
points-to sets and points-to graph, the node factory contract, the
per-instruction transfer functions of runOnFunction, handleCall,
findCalleesByType, doInitialization, doModulePass, doFinalization and the
iterative driver of KAMain.cc.  Components of the repository whose sources
are not part of src/ (NodeFactory, the points-to set representation,
extendObjectSize) are modelled from the specification; their definitions
carry a doc comment starting with "Modelled from the spec:".
-/

/-- LLVM types as inspected by CallGraphPass::isCompatibleType
(CallGraph.cc lines 43-138).  Pointer types keep their pointee and address
space (the tool builds against LLVM 13-16: typed pointers are still
available, but the LLVM_VERSION_MAJOR > 12 branch of isCompatibleType is
compiled, so pointer-pointer compatibility ignores the pointee).  Struct
types are either literal (compared by content) or named (compared by
name).  The fp constructor stands for the remaining first-class types that
the final branches compare by type id. -/
inductive LType where
  | void : LType
  | integer : Nat → LType
  | pointer : LType → Nat → LType
  | array : LType → Nat → LType
  | literalStruct : List LType → LType
  | namedStruct : String → LType
  | fn : LType → List LType → Bool → LType
  | fp : Nat → LType

mutual

/-- Structural equality on LType, modelling the pointer identity T1 == T2
of uniqued LLVM types. -/
def ltypeBeq : LType → LType → Bool
  | .void, .void => true
  | .integer w1, .integer w2 => w1 = w2
  | .pointer e1 sp1, .pointer e2 sp2 => ltypeBeq e1 e2 && sp1 = sp2
  | .array e1 n1, .array e2 n2 => ltypeBeq e1 e2 && n1 = n2
  | .literalStruct es1, .literalStruct es2 => ltypeListBeq es1 es2
  | .namedStruct n1, .namedStruct n2 => n1 = n2
  | .fn r1 ps1 v1, .fn r2 ps2 v2 => ltypeBeq r1 r2 && ltypeListBeq ps1 ps2 && v1 = v2
  | .fp i1, .fp i2 => i1 = i2
  | _, _ => false

/-- Structural equality on lists of LType. -/
def ltypeListBeq : List LType → List LType → Bool
  | [], [] => true
  | t1 :: r1, t2 :: r2 => ltypeBeq t1 t2 && ltypeListBeq r1 r2
  | _, _ => false

end

mutual

/-- Embedding of CallGraphPass::isCompatibleType (CallGraph.cc 43-138).
The leading equality test mirrors the T1 == T2 pointer-identity shortcut
of uniqued LLVM types; the remaining arms follow the if/else chain of the
source in order. -/
def isCompatibleType : LType → LType → Bool
  | T1, T2 =>
    if ltypeBeq T1 T2 then true
    else
      match T1, T2 with
      | .void, .void => true
      | .void, _ => false
      | .integer w, .pointer _ sp => w = sp
      | .integer _, .integer _ => true
      | .integer _, _ => false
      | .pointer _ _, .pointer _ _ => true
      | .pointer _ _, _ => false
      | .array e1 _, .array e2 _ => isCompatibleType e1 e2
      | .array _ _, _ => false
      | .literalStruct es1, .literalStruct es2 => compatElems es1 es2
      | .literalStruct _, _ => false
      | .namedStruct n1, .namedStruct n2 => n1 = n2
      | .namedStruct _, _ => false
      | .fn r1 ps1 v1, .fn r2 ps2 v2 =>
        if !isCompatibleType r1 r2 then false
        else if v1 then v2
        else compatElems ps1 ps2
      | .fn _ _ _, _ => false
      | .fp i1, .fp i2 => i1 = i2
      | .fp _, _ => false

/-- Elementwise compatibility with the count check of the literal-struct
and function-parameter loops of isCompatibleType. -/
def compatElems : List LType → List LType → Bool
  | [], [] => true
  | t1 :: r1, t2 :: r2 => isCompatibleType t1 t2 && compatElems r1 r2
  | _, _ => false

end

/-- Definition following the claim's words, for comparison with the
source: a symmetric compatibility relation would satisfy
compatSpecSymmetric. -/
def compatSpecSymmetric : Prop :=
  ∀ T1 T2 : LType, isCompatibleType T1 T2 = isCompatibleType T2 T1

/-- Signature data of an address-taken function as consumed by
CallGraphPass::findCalleesByType (CallGraph.cc 140-182). -/
structure FuncSig where
  retType : LType
  paramTypes : List LType
  isVarArg : Bool
  intrinsic : Bool

/-- Pairwise parameter matching loop of findCalleesByType (CallGraph.cc
160-175): the loop walks the callee's formals and the call site's actuals
in lockstep.  Walking a formal past the last actual is undefined behaviour
in the source (possible only for variadic callees); it is modelled as a
mismatch. -/
def matchParams : List LType → List LType → Bool
  | [], _ => true
  | _ :: _, [] => false
  | f :: fs, a :: rest => isCompatibleType f a && matchParams fs rest

/-- Per-candidate filter of findCalleesByType (CallGraph.cc 142-178):
the else-if chain skips the arity and return-type tests for variadic
candidates, then rejects intrinsics, then requires pairwise parameter
compatibility. -/
def typeAccept (csArgTypes : List LType) (csRetType : LType) (F : FuncSig) : Bool :=
  if F.isVarArg then
    !F.intrinsic && matchParams F.paramTypes csArgTypes
  else if F.paramTypes.length ≠ csArgTypes.length then false
  else if !isCompatibleType F.retType csRetType then false
  else !F.intrinsic && matchParams F.paramTypes csArgTypes

/-- Modelled from the spec: the size operation of AndersPtsSet (spec 4.2,
PointTo.h is not part of src/).  getSize returns one past the maximum
index present, 0 for the empty set; callers iterate with
find_first / find_next bounded by it. -/
def getSize (s : Finset Nat) : Nat :=
  if h : s.Nonempty then s.max' h + 1 else 0

/-- Modelled from the spec: find_first of AndersPtsSet, the least element,
or a value not below getSize when the set is empty (the C++ bitmap returns
npos, which fails the idx < getSize loop bound). -/
def findFirst (s : Finset Nat) : Nat :=
  if h : s.Nonempty then s.min' h else getSize s

/-- Modelled from the spec: find_next of AndersPtsSet, the least element
strictly greater than i, or getSize when there is none (the C++ bitmap
returns npos, which fails the idx < getSize loop bound just the same). -/
def findNext (s : Finset Nat) (i : Nat) : Nat :=
  if h : (s.filter (fun x => i < x)).Nonempty then (s.filter (fun x => i < x)).min' h
  else getSize s

/-- Ascending enumeration of a points-to set, used for the iteration
order of the find_first / find_next loops whose per-element effects are
order-insensitive apart from an early break. -/
def ascElems (s : Finset Nat) : List Nat :=
  (List.range (getSize s)).filter (fun x => x ∈ s)

/-- The points-to graph: Map from node index to points-to set (spec 3,
Global.h PtsGraph).  The option distinguishes an absent key (find misses)
from a present empty set; operator-bracket writes auto-create. -/
def PtsGraph := Nat → Option (Finset Nat)

/-- Reading a node's points-to set, absent keys reading as empty. -/
def ptsOf (g : PtsGraph) (n : Nat) : Finset Nat := (g n).getD ∅

/-- Modelled from the spec: the node factory contract (spec 4.1,
NodeFactory.h is not part of src/).  Indices are dense naturals; nextIdx
is the next unassigned index; objBase, objSize and the predicates describe
the object groups.  objSize i is the expanded size of the group containing
i; nodeFunc is getValueForNode restricted to the function back-resolution
used at indirect call sites (none covers both a missing value and a
non-function value, which the source skips identically). -/
structure NodeFactory where
  nextIdx : Nat
  special : Nat → Bool
  heapObj : Nat → Bool
  opqObj : Nat → Bool
  objBase : Nat → Nat
  objSize : Nat → Nat
  nodeFunc : Nat → Option Nat
  nullNode : Nat

/-- Object offset getObjectOffset: distance of an index from the base of
its group. -/
def NodeFactory.objOffset (nf : NodeFactory) (i : Nat) : Nat := i - nf.objBase i

/-- Modelled from the spec: createOpaqueObjectNode(call_site, is_heap)
allocates the next dense index as a fresh size-1 opaque heap object group
(spec 4.1 and 3: opaque objects have size 1 and may later be resized). -/
def createOpaque (nf : NodeFactory) : Nat × NodeFactory :=
  let i := nf.nextIdx
  (i, { nf with
    nextIdx := i + 1
    special := fun n => if n = i then false else nf.special n
    heapObj := fun n => if n = i then true else nf.heapObj n
    opqObj := fun n => if n = i then true else nf.opqObj n
    objBase := fun n => if n = i then i else nf.objBase n
    objSize := fun n => if n = i then 1 else nf.objSize n
    nodeFunc := fun n => if n = i then none else nf.nodeFunc n })

/-- Modelled from the spec: the createObjectNode loop of the type-shortcut
creation (CallGraph.cc 795-798) allocates a fresh contiguous heap object
group of the struct's expanded size. -/
def allocGroup (nf : NodeFactory) (size : Nat) : NodeFactory :=
  let b := nf.nextIdx
  { nf with
    nextIdx := b + size
    special := fun n => if b ≤ n ∧ n < b + size then false else nf.special n
    heapObj := fun n => if b ≤ n ∧ n < b + size then true else nf.heapObj n
    opqObj := fun n => if b ≤ n ∧ n < b + size then false else nf.opqObj n
    objBase := fun n => if b ≤ n ∧ n < b + size then b else nf.objBase n
    objSize := fun n => if b ≤ n ∧ n < b + size then size else nf.objSize n
    nodeFunc := fun n => if b ≤ n ∧ n < b + size then none else nf.nodeFunc n }

/-- Modelled from the spec: extendObjectSize (PointTo.h is not part of
src/) resizes an opaque heap object in place, appending field object
nodes until the group matches the record's expanded size; the base index
does not change and existing indices stay valid (spec 3 and 5).  The
points-to graph is not touched. -/
def extendObject (nf : NodeFactory) (idx newSize : Nat) : NodeFactory :=
  let b := nf.objBase idx
  { nf with
    nextIdx := max nf.nextIdx (b + newSize)
    special := fun n => if b ≤ n ∧ n < b + newSize then false else nf.special n
    heapObj := fun n => if b ≤ n ∧ n < b + newSize then true else nf.heapObj n
    opqObj := fun n => if b ≤ n ∧ n < b + newSize then false else nf.opqObj n
    objBase := fun n => if b ≤ n ∧ n < b + newSize then b else nf.objBase n
    objSize := fun n => if b ≤ n ∧ n < b + newSize then newSize else nf.objSize n
    nodeFunc := fun n => if b ≤ n ∧ n < b + newSize then none else nf.nodeFunc n }

/-- Index inserted by the GetElementPtr transfer function for one source
object (CallGraph.cc 569-574): nidx is idx + fieldNum, and when
getObjectOffset(idx) + fieldNum exceeds the captured allocSize the source
replaces it by the absolute index allocSize - 1. -/
def gepInsertIndex (nf : NodeFactory) (allocSize idx fieldNum : Nat) : Nat :=
  if nf.objOffset idx + fieldNum > allocSize then allocSize - 1
  else idx + fieldNum

/-- Definition following the claim's words, for comparison with the
source: the index the claim says the GetElementPtr transfer function
inserts, namely baseOf(o) + (getObjectOffset(o) + k) clamped into the
allocated bound of o's object group. -/
def gepSpecIndex (nf : NodeFactory) (idx fieldNum : Nat) : Nat :=
  nf.objBase idx + min (nf.objOffset idx + fieldNum) (nf.objSize idx - 1)

/-- Substring search modelling StringRef::find("alloc") != npos
(CallGraph.cc 269). -/
def listContainsSeq (p : List Char) : List Char → Bool
  | [] => p.isEmpty
  | c :: rest => p.isPrefixOf (c :: rest) || listContainsSeq p rest

/-- Name test of the allocation-wrapper heuristic in handleCall's return
binding: the callee's name contains the substring "alloc". -/
def nameHasAlloc (s : String) : Bool := listContainsSeq "alloc".toList s.data

/-- Entry-point seeding test of doInitialization (CallGraph.cc 718):
the function is named main or its name starts with SyS_. -/
def entrySeedName (s : String) : Bool :=
  s = "main" || "SyS_".data.isPrefixOf s.data

/-- Instruction stream of a function body, carrying the node-factory
indices that getValueNodeFor and getReturnNodeFor resolve statically
(value nodes are created on first reference and immutable, spec 3).
skipped stands for the instruction kinds filtered at CallGraph.cc 305-308,
unhandled for the default warning-only arm. -/
inductive Inst where
  | skipped : Inst
  | ret : Option Nat → Nat → Inst
  | callSite : Nat → Inst
  | alloca : Inst
  | load : Nat → Nat → Option Nat → Inst
  | store : Bool → Nat → Nat → Inst
  | gep : Nat → Nat → Option Nat → Int → Nat → Inst
  | bitcast : Nat → Nat → Inst
  | phi : Nat → List Nat → Inst
  | sel : Nat → List Nat → Inst
  | unhandled : Inst

/-- Static data of one call site (a CallBase): its own value node, the
called operand's value node, actual-argument value nodes and types, the
call's result type, and the classification bits used by the passes. -/
structure CallData where
  valueNode : Nat
  calleeNode : Nat
  argNodes : List Nat
  argTypes : List LType
  retType : LType
  calledFunction : Option Nat
  inlineAsm : Bool
  isInvoke : Bool

/-- Static data of one function: identifier, name, flags, the value nodes
of its formals, return node, the value and object nodes used by
doInitialization, its users (call-site identifiers), the struct ids of its
pointer-to-record return and argument types, and its instruction body. -/
structure FuncData where
  fid : Nat
  name : String
  intrinsic : Bool
  hasBody : Bool
  isVarArg : Bool
  argNodes : List Nat
  retNode : Nat
  retNonVoid : Bool
  valueNode : Nat
  objNode : Nat
  hasAddrTaken : Bool
  users : List Nat
  retStructId : Option Nat
  argStructPairs : List (Nat × Nat)
  body : List Inst

/-- Static program environment: the module's functions, lookup of function
data and of the GUID-canonicalised definition (getFuncDef, CallGraph.cc
35-41), call-site data, the address-taken set with signatures as consumed
by findCalleesByType, expanded struct sizes from the struct analyzer, and
the struct ids of the module's globals. -/
structure Env where
  funcs : List FuncData
  funcData : Nat → FuncData
  funcDef : Nat → Nat
  csData : Nat → CallData
  addressTaken : List (Nat × FuncSig)
  stSize : Nat → Nat
  globalStructIds : List Nat

/-- Mutable analysis state: the node factory, the points-to graph, the
reachable / unvisited function sets, the global context maps Callees and
Callers, the pass-local calleeByType and unresolvedFPts, and the
type-shortcut tables (spec 3). -/
structure AState where
  nf : NodeFactory
  graph : PtsGraph
  reachable : Finset Nat
  unvisited : Finset Nat
  callees : Nat → Option (Finset Nat)
  callers : Nat → Finset Nat
  calleeByType : Nat → Option (Finset Nat)
  unresolvedFPts : Finset Nat
  typeShortcuts : List (Nat × Nat)
  typeShortcutsObj : Finset Nat
  retStructs : List (Nat × List Nat)
  argStructs : List (Nat × List Nat)
  globalStructs : Finset Nat

/-- The initial analysis state: every container empty, the factory as
populated by populateNodeFactory. -/
def emptyState (nf : NodeFactory) : AState where
  nf := nf
  graph := fun _ => none
  reachable := ∅
  unvisited := ∅
  callees := fun _ => none
  callers := fun _ => ∅
  calleeByType := fun _ => none
  unresolvedFPts := ∅
  typeShortcuts := []
  typeShortcutsObj := ∅
  retStructs := []
  argStructs := []
  globalStructs := ∅

/-- Bulk insertion funcPtsGraph[n].insert(v) through operator-bracket:
the key is auto-created, the set is unioned, and the returned flag is the
change signal (insert returns whether anything new was added). -/
def gUpsertCh (s : AState) (n : Nat) (v : Finset Nat) : AState × Bool :=
  let old := ptsOf s.graph n
  ({ s with graph := fun m => if m = n then some (old ∪ v) else s.graph m },
   !(v ⊆ old))

/-- Embedding of CallGraphPass::findCalleesByType (CallGraph.cc 140-182):
every accepted address-taken function is inserted into the given set
(the source inserts into the set passed by reference). -/
def findCalleesByType (atf : List (Nat × FuncSig)) (cd : CallData)
    (FS : Finset Nat) : Finset Nat :=
  FS ∪ ((atf.filter (fun p => typeAccept cd.argTypes cd.retType p.2)).map
          Prod.fst).toFinset

/-- Association lookup in the struct-keyed maps retStructs / argStructs. -/
def assocFind (l : List (Nat × List Nat)) (k : Nat) : Option (List Nat) :=
  match l with
  | [] => none
  | (k', v) :: rest => if k' = k then some v else assocFind rest k

/-- Association insert in the struct-keyed maps retStructs / argStructs. -/
def assocAdd (l : List (Nat × List Nat)) (k v : Nat) : List (Nat × List Nat) :=
  match l with
  | [] => [(k, [v])]
  | (k', vs) :: rest =>
    if k' = k then (k', v :: vs) :: rest else (k', vs) :: assocAdd rest k v

/-- Reachability bookkeeping shared by the direct and indirect call cases
(CallGraph.cc 341-342 and 373-374): insert into reachable and, when new,
into unvisited. -/
def addReachable (s : AState) (f : Nat) : AState :=
  if f ∈ s.reachable then s
  else { s with reachable := insert f s.reachable,
                unvisited := insert f s.unvisited }

/-- Recording a resolved callee, Ctx->Callees[CS].insert(F)
(CallGraph.cc 343 and 375): operator-bracket auto-creates the key. -/
def calleesAdd (s : AState) (cs f : Nat) : AState :=
  { s with callees := fun c =>
      if c = cs then some (insert f ((s.callees cs).getD ∅)) else s.callees c }

/-- Argument binding loop of handleCall for a non-variadic callee
(CallGraph.cc 224-252): pairs of (actual value node, formal value node);
an actual absent from the graph is skipped, a formal recorded as a
type-shortcut target is skipped, otherwise the actual's set is unioned
into the formal's. -/
def bindArgs (s : AState) : List (Nat × Nat) → AState × Bool
  | [] => (s, false)
  | (argN, formalN) :: rest =>
    let step :=
      match s.graph argN with
      | none => (s, false)
      | some vs =>
        if formalN ∈ s.typeShortcutsObj then (s, false)
        else gUpsertCh s formalN vs
    let r := bindArgs step.1 rest
    (r.1, step.2 || r.2)

/-- Return-binding loop of handleCall (CallGraph.cc 265-275).  The loop
variable idx walks rs through find_first / find_next bounded by the
captured endB = getSize rs; an opaque heap element of an alloc-named
callee is replaced by a freshly created opaque heap object, and the loop
continues from find_next of the possibly replaced idx, exactly as the
source reassigns its loop variable.  The fuel bounds the iteration count;
endB + 1 iterations suffice whenever the factory's next index exceeds
every element of rs, which holds in every state the analysis reaches. -/
def retBindGo (rs : Finset Nat) (allocName : Bool) (callNode endB : Nat) :
    Nat → Nat → AState × Bool → AState × Bool
  | 0, _, p => p
  | fuel + 1, idx, p =>
    if idx < endB then
      let s := p.1
      let sub :=
        if s.nf.heapObj idx && s.nf.opqObj idx && allocName then
          let c := createOpaque s.nf
          (c.1, { s with nf := c.2 })
        else (idx, s)
      let ins := gUpsertCh sub.2 callNode {sub.1}
      retBindGo rs allocName callNode endB fuel (findNext rs sub.1)
        (ins.1, p.2 || ins.2)
    else p

/-- Return binding of handleCall (CallGraph.cc 256-277) once the return
node's points-to set rs has been found in the graph. -/
def retBind (s : AState) (allocName : Bool) (callNode : Nat)
    (rs : Finset Nat) : AState × Bool :=
  retBindGo rs allocName callNode (getSize rs) (getSize rs + 1)
    (findFirst rs) (s, false)

/-- Embedding of CallGraphPass::handleCall (CallGraph.cc 184-280):
intrinsics and bodyless callees do nothing; a non-variadic arity mismatch
aborts the whole binding; variadic callees get no argument propagation in
this version; then the return binding runs when the callee returns a
value and its return node is a key of the graph. -/
def handleCall (s : AState) (cd : CallData) (cf : FuncData) : AState × Bool :=
  if cf.intrinsic then (s, false)
  else if !cf.hasBody then (s, false)
  else if !cf.isVarArg && cd.argNodes.length ≠ cf.argNodes.length then (s, false)
  else
    let args :=
      if cf.isVarArg then (s, false)
      else bindArgs s (cd.argNodes.zip cf.argNodes)
    if !cf.retNonVoid then args
    else
      match args.1.graph cf.retNode with
      | none => args
      | some rs =>
        let r := retBind args.1 (nameHasAlloc cf.name) cd.valueNode rs
        (r.1, args.2 || r.2)

/-- One pts element of the indirect-call resolution loop (CallGraph.cc
355-378): specials are skipped with a warning, indices without a function
back-resolution are skipped, and a resolved function is made reachable,
recorded in Callees and bound through handleCall. -/
def indirectStep (env : Env) (cs : Nat) (cd : CallData)
    (p : AState × Bool) (idx : Nat) : AState × Bool :=
  if p.1.nf.special idx then p
  else
    match p.1.nf.nodeFunc idx with
    | none => p
    | some f =>
      let s1 := addReachable p.1 f
      let s2 := calleesAdd s1 cs f
      let r := handleCall s2 cd (env.funcData f)
      (r.1, p.2 || r.2)

/-- The Call / Invoke transfer function (CallGraph.cc 334-394): inline asm
is ignored; a direct call resolves through getFuncDef, records the callee
and binds through handleCall; an indirect call iterates the called
operand's points-to set when its node is a key of the graph (erasing the
operand from unresolvedFPts when the set's bound is non-zero), and
otherwise falls back to type-based resolution into calleeByType,
recording the operand as unresolved when that set is nonempty. -/
def callModel (env : Env) (s : AState) (cs : Nat) : AState × Bool :=
  let cd := env.csData cs
  if cd.inlineAsm then (s, false)
  else
    match cd.calledFunction with
    | some cf =>
      let rcf := env.funcDef cf
      let s1 := addReachable s rcf
      let s2 := calleesAdd s1 cs rcf
      handleCall s2 cd (env.funcData rcf)
    | none =>
      match s.graph cd.calleeNode with
      | some rs =>
        let r := (ascElems rs).foldl (indirectStep env cs cd) (s, false)
        if getSize rs ≠ 0 then
          ({ r.1 with unresolvedFPts := r.1.unresolvedFPts.erase cd.calleeNode },
           r.2)
        else r
      | none =>
        let ts := findCalleesByType env.addressTaken cd ((s.calleeByType cs).getD ∅)
        let s1 := { s with calleeByType := fun c =>
          if c = cs then some ts else s.calleeByType c }
        if ts.Nonempty then
          ({ s1 with unresolvedFPts := insert cd.calleeNode s1.unresolvedFPts },
           false)
        else (s1, false)

/-- One destination object of the Store transfer function (CallGraph.cc
489-497): special destinations are skipped with a warning, otherwise the
value's set vs is unioned into the destination object's set. -/
def storeStep (vs : Finset Nat) (p : AState × Bool) (idx : Nat) : AState × Bool :=
  if p.1.nf.special idx then p
  else
    let r := gUpsertCh p.1 idx vs
    (r.1, p.2 || r.2)

/-- One source object of the Load transfer function (CallGraph.cc
430-460).  The triple carries (state, changed, stopped).  When the source
object is the null object and the last element of ps, the null object
itself is inserted (with the change flag discarded, as in the source) and
the loop breaks; otherwise the object's own points-to set, when its node
is a key of the graph, is unioned into the destination. -/
def loadStep (valN : Nat) (ps : Finset Nat)
    (p : AState × Bool × Bool) (idx : Nat) : AState × Bool × Bool :=
  if p.2.2 then p
  else if decide (idx = p.1.nf.nullNode) && decide (findNext ps idx = getSize ps) then
    ((gUpsertCh p.1 valN {idx}).1, p.2.1, true)
  else
    match p.1.graph idx with
    | some s2 =>
      let r := gUpsertCh p.1 valN s2
      (r.1, p.2.1 || r.2, false)
    | none => p

/-- Shortcut application step of the Load transfer function (CallGraph.cc
407-422): a pointer-to-record destination whose record has a type shortcut
gets the shortcut object inserted and is recorded in typeShortcutsObj. -/
def loadShortcut (s : AState) (valN : Nat) (pointeeSt : Option Nat) :
    AState × Bool :=
  match pointeeSt with
  | some st =>
    match (s.typeShortcuts.filter (fun q => q.1 = st)).head? with
    | some q =>
      let r := gUpsertCh s valN {q.2}
      ({ r.1 with typeShortcutsObj := insert valN r.1.typeShortcutsObj }, r.2)
    | none => (s, false)
  | none => (s, false)

/-- The Load transfer function (CallGraph.cc 400-472): the fast path skips
destinations already collapsed into a type shortcut; the shortcut
application runs, and then the normal per-source loop when the pointer
operand's node is a key of the graph. -/
def loadModel (s : AState) (valN ptrN : Nat) (pointeeSt : Option Nat) :
    AState × Bool :=
  if valN ∈ s.typeShortcutsObj then (s, false)
  else
    let short := loadShortcut s valN pointeeSt
    match short.1.graph ptrN with
    | none => short
    | some ps =>
      let r := (ascElems ps).foldl (loadStep valN ps) (short.1, short.2, false)
      (r.1, r.2.1)

/-- Expanded size of the GEP source element record type, 0 when the
source element type is not a record. -/
def gepStructSz (env : Env) (srcSt : Option Nat) : Nat :=
  match srcSt with
  | some st => env.stSize st
  | none => 0

/-- Resize decision of the GetElementPtr loop (CallGraph.cc 532-554),
applied once the source object is known to be opaque: extend the object
group in place when the record's expanded size exceeds the captured
allocSize. -/
def gepResize (env : Env) (srcSt : Option Nat) (s : AState)
    (idx allocSize : Nat) : AState :=
  if gepStructSz env srcSt > allocSize then
    { s with nf := extendObject s.nf idx (gepStructSz env srcSt) }
  else s

/-- One source object of the GetElementPtr transfer function
(CallGraph.cc 522-578).  The triple carries (state, changed, stopped).
Special objects propagate unchanged; an oversized source whose record's
expanded size stSz exceeds the captured allocSize is resized in place when
opaque (heap) and silently dropped otherwise; a negative byte offset
breaks the loop; otherwise the clamped index gepInsertIndex is inserted,
against the allocSize captured before any resize, as in the source. -/
def gepStep (env : Env) (valN : Nat) (srcSt : Option Nat) (negOff : Bool)
    (fieldNum : Nat) (p : AState × Bool × Bool) (idx : Nat) :
    AState × Bool × Bool :=
  if p.2.2 then p
  else if p.1.nf.special idx then
    let r := gUpsertCh p.1 valN {idx}
    (r.1, p.2.1 || r.2, false)
  else
    let allocSize := p.1.nf.objSize idx
    if gepStructSz env srcSt > allocSize && !p.1.nf.opqObj idx then p
    else
      let s1 := gepResize env srcSt p.1 idx allocSize
      if negOff then (s1, p.2.1, true)
      else
        let r := gUpsertCh s1 valN {gepInsertIndex s1.nf allocSize idx fieldNum}
        (r.1, p.2.1 || r.2, false)

/-- The per-instruction transfer functions of CallGraphPass::runOnFunction
(CallGraph.cc 295-672), dispatching on the opcode as the source's switch
does. -/
def applyInst (env : Env) (s : AState) : Inst → AState × Bool
  | .skipped => (s, false)
  | .alloca => (s, false)
  | .unhandled => (s, false)
  | .ret rv retN =>
    match rv with
    | none => (s, false)
    | some rvN =>
      if retN ∈ s.typeShortcutsObj then (s, false)
      else
        match s.graph rvN with
        | none => (s, false)
        | some rs => gUpsertCh s retN rs
  | .callSite cs => callModel env s cs
  | .load valN ptrN pointeeSt => loadModel s valN ptrN pointeeSt
  | .store valIsPtr valN ptrN =>
    if !valIsPtr then (s, false)
    else
      match s.graph valN with
      | none => (s, false)
      | some vs =>
        match s.graph ptrN with
        | none => (s, false)
        | some ps => (ascElems ps).foldl (storeStep vs) (s, false)
  | .gep valN ptrN srcSt off fieldNum =>
    match s.graph ptrN with
    | none => (s, false)
    | some ps =>
      let r := (ascElems ps).foldl
        (gepStep env valN srcSt (decide (off < 0)) fieldNum) (s, false, false)
      (r.1, r.2.1)
  | .bitcast dstN srcN =>
    match s.graph srcN with
    | none => (s, false)
    | some rs => gUpsertCh s dstN rs
  | .phi dstN srcNs =>
    srcNs.foldl (fun p srcN =>
      match p.1.graph srcN with
      | none => p
      | some rs =>
        let r := gUpsertCh p.1 dstN rs
        (r.1, p.2 || r.2)) (s, false)
  | .sel dstN srcNs =>
    srcNs.foldl (fun p srcN =>
      match p.1.graph srcN with
      | none => p
      | some rs =>
        let r := gUpsertCh p.1 dstN rs
        (r.1, p.2 || r.2)) (s, false)

/-- Embedding of CallGraphPass::runOnFunction (CallGraph.cc 295-672):
erase the function from unvisited, then run the transfer function of
every instruction of the body, accumulating the change flag. -/
def runOnFunctionModel (env : Env) (s : AState) (f : FuncData) : AState × Bool :=
  f.body.foldl (fun p i =>
      let r := applyInst env p.1 i
      (r.1, p.2 || r.2))
    ({ s with unvisited := s.unvisited.erase f.fid }, false)

/-- One candidate record type of the type-shortcut creation
(CallGraph.cc 788-814): a struct that is a retStructs key, an argStructs
key and not a globalStructs key gets one fresh abstract object group, is
entered into typeShortcuts, and all its return and argument value nodes
are pointed at the object and recorded in typeShortcutsObj. -/
def shortcutEntry (env : Env) (s : AState) (entry : Nat × List Nat) : AState :=
  match assocFind s.argStructs entry.1 with
  | none => s
  | some argNs =>
    if entry.1 ∈ s.globalStructs then s
    else
      let base := s.nf.nextIdx
      let s1 := { s with nf := allocGroup s.nf (env.stSize entry.1),
                         typeShortcuts := s.typeShortcuts ++ [(entry.1, base)] }
      (entry.2 ++ argNs).foldl (fun s2 node =>
        let s3 := (gUpsertCh s2 node {base}).1
        { s3 with typeShortcutsObj := insert node s3.typeShortcutsObj }) s1

/-- Type-shortcut creation at the top of doModulePass (CallGraph.cc
784-815): runs over the retStructs entries only while typeShortcuts is
still empty. -/
def shortcutCreate (env : Env) (s : AState) : AState :=
  if s.typeShortcuts.isEmpty then s.retStructs.foldl (shortcutEntry env) s
  else s

/-- The function-processing sweep of doModulePass (CallGraph.cc 872-880):
every function of the module that is not a declaration, not an intrinsic
and not bodyless is processed by runOnFunction — the reachability guard of
the source is commented out. -/
def processFuncs (env : Env) (s : AState) : AState × Bool :=
  env.funcs.foldl (fun p f =>
      if !f.hasBody || f.intrinsic then p
      else
        let r := runOnFunctionModel env p.1 f
        (r.1, p.2 || r.2))
    (s, false)

/-- Embedding of CallGraphPass::doModulePass (CallGraph.cc 779-885):
type-shortcut creation runs unconditionally; the instruction-processing
sweep is guarded by Iteration < 2 and its change flag is the return
value, which is false whenever the guard fails. -/
def doModulePassModel (env : Env) (iteration : Nat) (s : AState) :
    AState × Bool :=
  let s1 := shortcutCreate env s
  if iteration < 2 then processFuncs env s1 else (s1, false)

/-- Per-function part of doInitialization (CallGraph.cc 694-749):
Callers[getFuncDef F] collects the CallInst users that call F directly;
an address-taken function gets the valueNode -> objectNode edge; main and
SyS_-prefixed names seed reachable and unvisited; pointer-to-record
return and argument types are recorded in retStructs / argStructs. -/
def initUsers (env : Env) (f : FuncData) : Finset Nat :=
  (f.users.filter (fun u =>
    !(env.csData u).isInvoke &&
      (env.csData u).calledFunction = some f.fid)).toFinset

def initCallers (env : Env) (s : AState) (f : FuncData) : AState :=
  { s with callers := fun g =>
      if g = env.funcDef f.fid then s.callers g ∪ initUsers env f
      else s.callers g }

def initAddrTaken (s : AState) (f : FuncData) : AState :=
  if f.hasAddrTaken then (gUpsertCh s f.valueNode {f.objNode}).1 else s

def initSeed (s : AState) (f : FuncData) : AState :=
  if entrySeedName f.name then
    { s with reachable := insert f.fid s.reachable,
             unvisited := insert f.fid s.unvisited }
  else s

def initRetStructs (s : AState) (f : FuncData) : AState :=
  match f.retStructId with
  | some st => { s with retStructs := assocAdd s.retStructs st f.valueNode }
  | none => s

def initArgStructs (s : AState) (f : FuncData) : AState :=
  f.argStructPairs.foldl (fun s5 q =>
    { s5 with argStructs := assocAdd s5.argStructs q.1 q.2 }) s

def initFunc (env : Env) (s : AState) (f : FuncData) : AState :=
  initArgStructs
    (initRetStructs (initSeed (initAddrTaken (initCallers env s f) f) f) f) f

/-- Embedding of CallGraphPass::doInitialization (CallGraph.cc 674-752):
record the globals' record types, then the per-function bookkeeping; the
source always returns false. -/
def doInitModel (env : Env) (s : AState) : AState × Bool :=
  let s1 := env.globalStructIds.foldl (fun s2 st =>
    { s2 with globalStructs := insert st s2.globalStructs }) s
  (env.funcs.foldl (initFunc env) s1, false)

/-- Per-instruction part of doFinalization (CallGraph.cc 757-773): only
CallInst instructions are considered (an Invoke fails the dyn_cast), inline
asm is skipped, Ctx->Callees[CI] is auto-created, each recorded callee
gets the site in its Callers entry, and calleeByType[CI] receives the
type-based candidates of findCalleesByType for every such site. -/
def finalInst (env : Env) (s : AState) : Inst → AState
  | .callSite cs =>
    let cd := env.csData cs
    if cd.isInvoke then s
    else if cd.inlineAsm then s
    else
      let fs := (s.callees cs).getD ∅
      let s1 := { s with callees := fun c =>
        if c = cs then some fs else s.callees c }
      let s2 := { s1 with callers := fun g =>
        if g ∈ fs then insert cs (s1.callers g) else s1.callers g }
      let ts := findCalleesByType env.addressTaken cd ((s2.calleeByType cs).getD ∅)
      { s2 with calleeByType := fun c =>
        if c = cs then some ts else s2.calleeByType c }
  | _ => s

/-- Embedding of CallGraphPass::doFinalization (CallGraph.cc 754-777):
sweep every instruction of every function of the module; the source
always returns false. -/
def doFinalModel (env : Env) (s : AState) : AState × Bool :=
  (env.funcs.foldl (fun s1 f => f.body.foldl (finalInst env) s1) s, false)

/-- Initialization phase of IterativeModulePass::run (KAMain.cc 68-78):
Iteration starts at 0, each round runs doInitialization and increments
Iteration, and the loop ends when a round reports no change.  The fuel
bounds the rounds; one round always suffices because doInitialization
returns false. -/
def initLoopModel (env : Env) : Nat → Nat → AState → Nat × AState
  | 0, iteration, s => (iteration, s)
  | fuel + 1, iteration, s =>
    let r := doInitModel env s
    if r.2 then initLoopModel env fuel (iteration + 1) r.1
    else (iteration + 1, r.1)

/-- Fixpoint phase of IterativeModulePass::run (KAMain.cc 80-97): at
least one round runs; each round calls doModulePass with the current
Iteration, increments Iteration, and the loop ends when a round reports
no change. -/
def fixLoopModel (env : Env) : Nat → Nat → AState → Nat × AState
  | 0, iteration, s => (iteration, s)
  | fuel + 1, iteration, s =>
    let r := doModulePassModel env iteration s
    if r.2 then fixLoopModel env fuel (iteration + 1) r.1
    else (iteration + 1, r.1)

/-- Finalization phase of IterativeModulePass::run (KAMain.cc 99-109):
rounds of doFinalization until quiescent; one round always suffices
because doFinalization returns false. -/
def finalLoopModel (env : Env) : Nat → AState → AState
  | 0, s => s
  | fuel + 1, s =>
    let r := doFinalModel env s
    if r.2 then finalLoopModel env fuel r.1 else r.1

/-- The entire run of the pass (KAMain.cc 64-112): initialization rounds,
fixpoint rounds with the Iteration counter carried over from
initialization, then finalization rounds. -/
def runModel (env : Env) (fuelInit fuelFix fuelFin : Nat) (s0 : AState) :
    AState :=
  let ini := initLoopModel env fuelInit 0 s0
  let fix := fixLoopModel env fuelFix ini.1 ini.2
  finalLoopModel env fuelFin fix.2

/-- Iterating k fixpoint passes from a given Iteration value, used to
state monotonicity across passes. -/
def passIter (env : Env) : Nat → Nat → AState → AState
  | 0, _, s => s
  | k + 1, iteration, s =>
    passIter env k (iteration + 1) (doModulePassModel env iteration s).1

/-- Definition following the claim's words, for comparison with the
source: the least fixpoint Reachable = Entries + the callees, under the
final Callees map cal, of call sites located in reachable functions.  The
entries are the module functions passing the entry-name seeding. -/
inductive SpecReachable (env : Env) (cal : Nat → Finset Nat) : Nat → Prop where
  | entry (f : FuncData) : f ∈ env.funcs → entrySeedName f.name = true →
      SpecReachable env cal f.fid
  | step (f : FuncData) (cs g : Nat) : SpecReachable env cal f.fid →
      f ∈ env.funcs → Inst.callSite cs ∈ f.body → g ∈ cal cs →
      SpecReachable env cal g

/-- Substitution condition of the return-binding loop (CallGraph.cc 269):
the element is an opaque heap object and the callee's name contains
"alloc". -/
def substitutable (nf : NodeFactory) (allocName : Bool) (x : Nat) : Bool :=
  nf.heapObj x && nf.opqObj x && allocName

/-- Pointwise growth of the points-to graph between two states. -/
def GraphMono (s s' : AState) : Prop :=
  ∀ n, ptsOf s.graph n ⊆ ptsOf s'.graph n

/-- Equality of every state field except the points-to graph and the node
factory; handleCall and its helpers satisfy it. -/
def CorePres (s s' : AState) : Prop :=
  s'.reachable = s.reachable ∧ s'.unvisited = s.unvisited ∧
  s'.callees = s.callees ∧ s'.callers = s.callers ∧
  s'.calleeByType = s.calleeByType ∧ s'.unresolvedFPts = s.unresolvedFPts ∧
  s'.typeShortcuts = s.typeShortcuts ∧ s'.typeShortcutsObj = s.typeShortcutsObj ∧
  s'.retStructs = s.retStructs ∧ s'.argStructs = s.argStructs ∧
  s'.globalStructs = s.globalStructs

/-- Equality of the fields no transfer function writes: Callers and the
type-shortcut candidate tables. -/
def StructPres (s s' : AState) : Prop :=
  s'.callers = s.callers ∧ s'.typeShortcuts = s.typeShortcuts ∧
  s'.retStructs = s.retStructs ∧ s'.argStructs = s.argStructs ∧
  s'.globalStructs = s.globalStructs

/-- Candidate absence for the type-shortcut creation: every retStructs
key either misses argStructs or is a global's record type. -/
def noCandidates (s : AState) : Prop :=
  ∀ p ∈ s.retStructs, (assocFind s.argStructs p.1).isSome = true →
    p.1 ∈ s.globalStructs

/-- State in which the type-shortcut creation of doModulePass is a no-op:
shortcuts already exist or there is no candidate.  It holds after the
first doModulePass call of a run and is preserved by the sweeps. -/
def shortcutsReady (s : AState) : Prop :=
  s.typeShortcuts ≠ [] ∨ noCandidates s

/-- Membership of g among the entry seeds of the module (spec 3:
Reachable is seeded by name from the module's functions). -/
def entryFid (env : Env) (g : Nat) : Prop :=
  ∃ f, f ∈ env.funcs ∧ entrySeedName f.name = true ∧ f.fid = g

/-- Invariant: every function recorded as a callee of any call site is in
the reachable set (both insertions happen together, CallGraph.cc 341-343
and 373-375). -/
def CalleesInReach (s : AState) : Prop :=
  ∀ g cs, g ∈ (s.callees cs).getD ∅ → g ∈ s.reachable

/-- Invariant: every reachable function is an entry seed or a recorded
callee of some call site. -/
def ReachFromCallees (env : Env) (s : AState) : Prop :=
  ∀ g ∈ s.reachable, entryFid env g ∨ ∃ cs, g ∈ (s.callees cs).getD ∅

/-- Invariant: every entry seed of the module is in the reachable set. -/
def EntriesIn (env : Env) (s : AState) : Prop :=
  ∀ f ∈ env.funcs, entrySeedName f.name = true → f.fid ∈ s.reachable

/-- Generic node factory for the concrete programs below: no specials, no
heap objects, singleton object groups. -/
def nfNop : NodeFactory where
  nextIdx := 60
  special := fun _ => false
  heapObj := fun _ => false
  opqObj := fun _ => false
  objBase := fun n => n
  objSize := fun _ => 1
  nodeFunc := fun _ => none
  nullNode := 0

/-- Node factory exhibiting one object group of base 10 and expanded size
2, for the GetElementPtr clamp counterexample. -/
def nf4 : NodeFactory where
  nextIdx := 20
  special := fun _ => false
  heapObj := fun _ => false
  opqObj := fun _ => false
  objBase := fun _ => 10
  objSize := fun _ => 2
  nodeFunc := fun _ => none
  nullNode := 0

/-- Node factory for the return-binding counterexample: node 5 is an
opaque heap object, nodes 5 and 7 exist, the next fresh index is 10. -/
def nf7 : NodeFactory where
  nextIdx := 10
  special := fun _ => false
  heapObj := fun n => n == 5
  opqObj := fun n => n == 5
  objBase := fun n => n
  objSize := fun _ => 1
  nodeFunc := fun _ => none
  nullNode := 0

/-- State for the return-binding counterexample: the callee's return node
20 points to the objects 5 and 7. -/
def s7 : AState :=
  { emptyState nf7 with graph := fun n => if n = 20 then some {5, 7} else none }

/-- Callee of the return-binding counterexample: an alloc-named,
non-variadic function with a body, no formals, and a non-void return
bound to return node 20. -/
def cf7 : FuncData where
  fid := 100
  name := "myalloc"
  intrinsic := false
  hasBody := true
  isVarArg := false
  argNodes := []
  retNode := 20
  retNonVoid := true
  valueNode := 0
  objNode := 0
  hasAddrTaken := false
  users := []
  retStructId := none
  argStructPairs := []
  body := []

/-- Call site of the return-binding counterexample, with value node 21. -/
def cd7 : CallData where
  valueNode := 21
  calleeNode := 0
  argNodes := []
  argTypes := []
  retType := .void
  calledFunction := some 100
  inlineAsm := false
  isInvoke := false

/-- Placeholder call-site data of unreferenced identifiers in the concrete
programs; marked as an Invoke so it also serves the invoke-exclusion
witness. -/
def dummyCS : CallData where
  valueNode := 0
  calleeNode := 0
  argNodes := []
  argTypes := []
  retType := .void
  calledFunction := none
  inlineAsm := false
  isInvoke := true

/-- Placeholder function data of unreferenced identifiers in the concrete
programs. -/
def dummyFunc : FuncData where
  fid := 99
  name := "dummy"
  intrinsic := false
  hasBody := false
  isVarArg := false
  argNodes := []
  retNode := 0
  retNonVoid := false
  valueNode := 0
  objNode := 0
  hasAddrTaken := false
  users := []
  retStructId := none
  argStructPairs := []
  body := []

/-- Variadic, non-intrinsic address-taken signature with no formals and a
floating-point return type; it matches any call site through the variadic
branch of typeAccept while its return type is incompatible with void. -/
def sigVar : FuncSig where
  retType := .fp 0
  paramTypes := []
  isVarArg := true
  intrinsic := false

/-- Indirect call-site data whose called operand has value node 4. -/
def cd6 : CallData where
  valueNode := 30
  calleeNode := 4
  argNodes := []
  argTypes := []
  retType := .void
  calledFunction := none
  inlineAsm := false
  isInvoke := false

/-- Environment of the empty-points-to counterexample: call site 1 is the
indirect site cd6 and function 7 is address-taken with signature
sigVar. -/
def env6 : Env where
  funcs := []
  funcData := fun _ => dummyFunc
  funcDef := fun f => f
  csData := fun c => if c = 1 then cd6 else dummyCS
  addressTaken := [(7, sigVar)]
  stSize := fun _ => 0
  globalStructIds := []

/-- State of the empty-points-to counterexample: the called operand's
node 4 is a key of the graph holding the empty set. -/
def s6 : AState :=
  { emptyState nfNop with graph := fun n => if n = 4 then some ∅ else none }

/-- Call-site data for the type-resolution counterexample. -/
def cd8 : CallData where
  valueNode := 0
  calleeNode := 0
  argNodes := []
  argTypes := []
  retType := .void
  calledFunction := none
  inlineAsm := false
  isInvoke := false

/-- Program of the direct-call calleeByType counterexample: main calls
function 2 directly at call site 1. -/
def mainF2 : FuncData where
  fid := 0
  name := "main"
  intrinsic := false
  hasBody := true
  isVarArg := false
  argNodes := []
  retNode := 50
  retNonVoid := false
  valueNode := 40
  objNode := 41
  hasAddrTaken := false
  users := []
  retStructId := none
  argStructPairs := []
  body := [.callSite 1]

/-- Directly called function of the calleeByType counterexample. -/
def calleeF2 : FuncData where
  fid := 2
  name := "callee"
  intrinsic := false
  hasBody := true
  isVarArg := false
  argNodes := []
  retNode := 51
  retNonVoid := false
  valueNode := 42
  objNode := 43
  hasAddrTaken := false
  users := []
  retStructId := none
  argStructPairs := []
  body := []

/-- Direct call site of the calleeByType counterexample. -/
def cd2 : CallData where
  valueNode := 44
  calleeNode := 45
  argNodes := []
  argTypes := []
  retType := .void
  calledFunction := some 2
  inlineAsm := false
  isInvoke := false

/-- Environment of the calleeByType counterexample. -/
def env2 : Env where
  funcs := [mainF2, calleeF2]
  funcData := fun f => if f = 0 then mainF2 else if f = 2 then calleeF2 else dummyFunc
  funcDef := fun f => f
  csData := fun c => if c = 1 then cd2 else dummyCS
  addressTaken := []
  stSize := fun _ => 0
  globalStructIds := []

/-- Program of the reachability counterexample: main (the only entry) has
no calls; the never-called function helper directly calls target at call
site 1. -/
def mainF1 : FuncData where
  fid := 0
  name := "main"
  intrinsic := false
  hasBody := true
  isVarArg := false
  argNodes := []
  retNode := 50
  retNonVoid := false
  valueNode := 40
  objNode := 41
  hasAddrTaken := false
  users := []
  retStructId := none
  argStructPairs := []
  body := []

/-- Never-called function of the reachability counterexample. -/
def helperF1 : FuncData where
  fid := 1
  name := "helper"
  intrinsic := false
  hasBody := true
  isVarArg := false
  argNodes := []
  retNode := 52
  retNonVoid := false
  valueNode := 46
  objNode := 47
  hasAddrTaken := false
  users := []
  retStructId := none
  argStructPairs := []
  body := [.callSite 1]

/-- Callee of the never-called function in the reachability
counterexample. -/
def targetF1 : FuncData where
  fid := 2
  name := "target"
  intrinsic := false
  hasBody := true
  isVarArg := false
  argNodes := []
  retNode := 51
  retNonVoid := false
  valueNode := 42
  objNode := 43
  hasAddrTaken := false
  users := []
  retStructId := none
  argStructPairs := []
  body := []

/-- Direct call site helper -> target of the reachability
counterexample. -/
def cd1 : CallData where
  valueNode := 44
  calleeNode := 45
  argNodes := []
  argTypes := []
  retType := .void
  calledFunction := some 2
  inlineAsm := false
  isInvoke := false

/-- Environment of the reachability counterexample. -/
def env1 : Env where
  funcs := [mainF1, helperF1, targetF1]
  funcData := fun f =>
    if f = 0 then mainF1 else if f = 1 then helperF1
    else if f = 2 then targetF1 else dummyFunc
  funcDef := fun f => f
  csData := fun c => if c = 1 then cd1 else dummyCS
  addressTaken := []
  stSize := fun _ => 0
  globalStructIds := []

mutual

theorem ltypeBeq_refl : ∀ T : LType, ltypeBeq T T = true
  | .void => rfl
  | .integer _ => by simp [ltypeBeq]
  | .pointer e _ => by simp [ltypeBeq, ltypeBeq_refl e]
  | .array e _ => by simp [ltypeBeq, ltypeBeq_refl e]
  | .literalStruct es => by simp [ltypeBeq, ltypeListBeq_refl es]
  | .namedStruct _ => by simp [ltypeBeq]
  | .fn r ps _ => by simp [ltypeBeq, ltypeBeq_refl r, ltypeListBeq_refl ps]
  | .fp _ => by simp [ltypeBeq]

theorem ltypeListBeq_refl : ∀ l : List LType, ltypeListBeq l l = true
  | [] => rfl
  | t :: r => by simp [ltypeListBeq, ltypeBeq_refl t, ltypeListBeq_refl r]

end

theorem foldlPreserve {α σ : Type _} (f : σ → α → σ) (P : σ → Prop)
    (h : ∀ s a, P s → P (f s a)) :
    ∀ (l : List α) (s : σ), P s → P (l.foldl f s)
  | [], _, hs => hs
  | a :: l, s, hs => foldlPreserve f P h l (f s a) (h s a hs)

theorem foldlPreserveMem {α σ : Type _} (f : σ → α → σ) (P : σ → Prop) :
    ∀ (l : List α), (∀ a ∈ l, ∀ s, P s → P (f s a)) →
      ∀ s : σ, P s → P (l.foldl f s)
  | [], _, _, hs => hs
  | a :: l, h, s, hs =>
    foldlPreserveMem f P l (fun b hb => h b (List.mem_cons_of_mem a hb))
      (f s a) (h a (List.mem_cons_self a l) s hs)

theorem foldlReach {α σ : Type _} (f : σ → α → σ) (P : σ → Prop) (a0 : α)
    (hpres : ∀ s a, P s → P (f s a)) (hest : ∀ s, P (f s a0)) :
    ∀ (l : List α) (s : σ), a0 ∈ l → P (l.foldl f s)
  | a :: l, s, hmem => by
    rcases List.mem_cons.mp hmem with h | h
    · subst h
      exact foldlPreserve f P hpres l (f s a0) (hest s)
    · exact foldlReach f P a0 hpres hest l (f s a) h

theorem foldlFix {α σ : Type _} (f : σ → α → σ) (s : σ) :
    ∀ l : List α, (∀ a ∈ l, f s a = s) → l.foldl f s = s
  | [], _ => rfl
  | a :: l, h => by
    rw [List.foldl_cons, h a (List.mem_cons_self a l)]
    exact foldlFix f s l (fun b hb => h b (List.mem_cons_of_mem a hb))

theorem graphMono_refl (s : AState) : GraphMono s s :=
  fun _ => Finset.Subset.refl _

theorem graphMono_of_eq {s s' : AState} (h : s'.graph = s.graph) :
    GraphMono s s' := by
  intro n
  rw [h]

theorem graphMono_trans {a b c : AState} (h1 : GraphMono a b)
    (h2 : GraphMono b c) : GraphMono a c :=
  fun n => (h1 n).trans (h2 n)

theorem gUpsertCh_mono (s : AState) (n : Nat) (v : Finset Nat) :
    GraphMono s (gUpsertCh s n v).1 := by
  intro m
  by_cases hm : m = n
  · subst hm
    simp [gUpsertCh, ptsOf]
  · simp [gUpsertCh, ptsOf, hm]

theorem foldlMonoPair {α : Type _} (g : AState × Bool → α → AState × Bool)
    (hg : ∀ p a, GraphMono p.1 (g p a).1) (l : List α) (p : AState × Bool) :
    GraphMono p.1 (l.foldl g p).1 :=
  foldlPreserve g (fun q => GraphMono p.1 q.1)
    (fun q a hq => graphMono_trans hq (hg q a)) l p (graphMono_refl p.1)

theorem foldlMonoTriple {α : Type _}
    (g : AState × Bool × Bool → α → AState × Bool × Bool)
    (hg : ∀ p a, GraphMono p.1 (g p a).1) (l : List α)
    (p : AState × Bool × Bool) : GraphMono p.1 (l.foldl g p).1 :=
  foldlPreserve g (fun q => GraphMono p.1 q.1)
    (fun q a hq => graphMono_trans hq (hg q a)) l p (graphMono_refl p.1)

theorem foldlMonoState {α : Type _} (g : AState → α → AState)
    (hg : ∀ s a, GraphMono s (g s a)) (l : List α) (s : AState) :
    GraphMono s (l.foldl g s) :=
  foldlPreserve g (fun q => GraphMono s q)
    (fun q a hq => graphMono_trans hq (hg q a)) l s (graphMono_refl s)

theorem bindArgs_mono : ∀ (l : List (Nat × Nat)) (s : AState),
    GraphMono s (bindArgs s l).1
  | [], s => graphMono_refl s
  | (argN, formalN) :: rest, s => by
    simp only [bindArgs]
    cases hg : s.graph argN with
    | none => simpa [hg] using bindArgs_mono rest s
    | some vs =>
      by_cases hts : formalN ∈ s.typeShortcutsObj
      · simpa [hg, hts] using bindArgs_mono rest s
      · simp only [hg, hts, if_neg, if_false]
        exact graphMono_trans (gUpsertCh_mono s formalN vs)
          (bindArgs_mono rest (gUpsertCh s formalN vs).1)

theorem retBindGo_mono (rs : Finset Nat) (an : Bool) (cn endB : Nat) :
    ∀ (fuel idx : Nat) (p : AState × Bool),
      GraphMono p.1 (retBindGo rs an cn endB fuel idx p).1
  | 0, _, p => graphMono_refl p.1
  | fuel + 1, idx, p => by
    simp only [retBindGo]
    by_cases hlt : idx < endB
    · simp only [hlt, if_true]
      by_cases hs : (p.1.nf.heapObj idx && p.1.nf.opqObj idx && an) = true
      · simp only [hs, if_true]
        apply graphMono_trans _ (retBindGo_mono rs an cn endB fuel _ _)
        exact graphMono_trans (graphMono_of_eq rfl)
          (gUpsertCh_mono { p.1 with nf := (createOpaque p.1.nf).2 } cn
            {(createOpaque p.1.nf).1})
      · simp only [hs, if_false]
        apply graphMono_trans _ (retBindGo_mono rs an cn endB fuel _ _)
        exact gUpsertCh_mono p.1 cn {idx}
    · simp [hlt]
      exact graphMono_refl p.1

theorem retBind_mono (s : AState) (an : Bool) (cn : Nat) (rs : Finset Nat) :
    GraphMono s (retBind s an cn rs).1 :=
  retBindGo_mono rs an cn (getSize rs) (getSize rs + 1) (findFirst rs) (s, false)

theorem addReachable_mono (s : AState) (f : Nat) :
    GraphMono s (addReachable s f) := by
  unfold addReachable
  split
  · exact graphMono_refl s
  · exact graphMono_of_eq rfl

theorem handleCall_mono (s : AState) (cd : CallData) (cf : FuncData) :
    GraphMono s (handleCall s cd cf).1 := by
  unfold handleCall
  dsimp only
  split
  · exact graphMono_refl s
  split
  · exact graphMono_refl s
  split
  · exact graphMono_refl s
  have hargs : GraphMono s (if cf.isVarArg then (s, false)
      else bindArgs s (cd.argNodes.zip cf.argNodes)).1 := by
    split
    · exact graphMono_refl s
    · exact bindArgs_mono _ s
  split
  · exact hargs
  · split
    · exact hargs
    · exact graphMono_trans hargs (retBind_mono _ _ cd.valueNode _)

theorem indirectStep_mono (env : Env) (cs : Nat) (cd : CallData)
    (p : AState × Bool) (idx : Nat) :
    GraphMono p.1 (indirectStep env cs cd p idx).1 := by
  unfold indirectStep
  dsimp only
  split
  · exact graphMono_refl p.1
  split
  · exact graphMono_refl p.1
  next f _ =>
    apply graphMono_trans (b := calleesAdd (addReachable p.1 f) cs f) _
      (handleCall_mono _ cd (env.funcData f))
    apply graphMono_trans (b := addReachable p.1 f) (addReachable_mono p.1 f)
    exact graphMono_of_eq rfl

theorem callModel_mono (env : Env) (s : AState) (cs : Nat) :
    GraphMono s (callModel env s cs).1 := by
  unfold callModel
  dsimp only
  split
  · exact graphMono_refl s
  split
  next cf _ =>
    apply graphMono_trans
      (b := calleesAdd (addReachable s (env.funcDef cf)) cs (env.funcDef cf)) _
      (handleCall_mono _ (env.csData cs) (env.funcData (env.funcDef cf)))
    apply graphMono_trans (b := addReachable s (env.funcDef cf))
      (addReachable_mono s (env.funcDef cf))
    exact graphMono_of_eq rfl
  · split
    next rs _ =>
      split
      · apply graphMono_trans
          (foldlMonoPair (indirectStep env cs (env.csData cs))
            (indirectStep_mono env cs (env.csData cs)) (ascElems rs) (s, false))
        exact graphMono_of_eq rfl
      · exact foldlMonoPair (indirectStep env cs (env.csData cs))
          (indirectStep_mono env cs (env.csData cs)) (ascElems rs) (s, false)
    · split
      · exact graphMono_of_eq rfl
      · exact graphMono_of_eq rfl

theorem storeStep_mono (vs : Finset Nat) (p : AState × Bool) (idx : Nat) :
    GraphMono p.1 (storeStep vs p idx).1 := by
  unfold storeStep
  split
  · exact graphMono_refl p.1
  · exact gUpsertCh_mono p.1 idx vs

theorem loadStep_mono (valN : Nat) (ps : Finset Nat)
    (p : AState × Bool × Bool) (idx : Nat) :
    GraphMono p.1 (loadStep valN ps p idx).1 := by
  unfold loadStep
  split
  · exact graphMono_refl p.1
  split
  · exact gUpsertCh_mono p.1 valN {idx}
  · split
    · exact gUpsertCh_mono p.1 valN _
    · exact graphMono_refl p.1

theorem gepResize_mono (env : Env) (srcSt : Option Nat) (s : AState)
    (idx allocSize : Nat) : GraphMono s (gepResize env srcSt s idx allocSize) := by
  unfold gepResize
  split
  · exact graphMono_of_eq rfl
  · exact graphMono_refl s

theorem gepStep_mono (env : Env) (valN : Nat) (srcSt : Option Nat)
    (negOff : Bool) (fieldNum : Nat) (p : AState × Bool × Bool) (idx : Nat) :
    GraphMono p.1 (gepStep env valN srcSt negOff fieldNum p idx).1 := by
  unfold gepStep
  dsimp only
  split
  · exact graphMono_refl p.1
  split
  · exact gUpsertCh_mono p.1 valN {idx}
  · split
    · exact graphMono_refl p.1
    · split
      · exact gepResize_mono env srcSt p.1 idx (p.1.nf.objSize idx)
      · exact graphMono_trans
          (gepResize_mono env srcSt p.1 idx (p.1.nf.objSize idx))
          (gUpsertCh_mono _ valN _)

theorem loadShortcut_mono (s : AState) (valN : Nat) (pointeeSt : Option Nat) :
    GraphMono s (loadShortcut s valN pointeeSt).1 := by
  cases pointeeSt with
  | none => exact graphMono_refl s
  | some st =>
    show GraphMono s (loadShortcut s valN (some st)).1
    unfold loadShortcut
    dsimp only
    cases (s.typeShortcuts.filter (fun q => q.1 = st)).head? with
    | none => exact graphMono_refl s
    | some q =>
      exact graphMono_trans (gUpsertCh_mono s valN {q.2}) (graphMono_of_eq rfl)

theorem loadModel_mono (s : AState) (valN ptrN : Nat)
    (pointeeSt : Option Nat) :
    GraphMono s (loadModel s valN ptrN pointeeSt).1 := by
  unfold loadModel
  dsimp only
  split
  · exact graphMono_refl s
  split
  · exact loadShortcut_mono s valN pointeeSt
  next ps _ =>
    exact graphMono_trans (loadShortcut_mono s valN pointeeSt)
      (foldlMonoTriple (loadStep valN ps) (loadStep_mono valN ps) (ascElems ps)
        ((loadShortcut s valN pointeeSt).1, (loadShortcut s valN pointeeSt).2,
          false))

theorem applyInst_mono (env : Env) (s : AState) (i : Inst) :
    GraphMono s (applyInst env s i).1 := by
  cases i with
  | skipped => exact graphMono_refl s
  | alloca => exact graphMono_refl s
  | unhandled => exact graphMono_refl s
  | ret rv retN =>
    cases rv with
    | none => exact graphMono_refl s
    | some rvN =>
      show GraphMono s (applyInst env s (.ret (some rvN) retN)).1
      unfold applyInst
      dsimp only
      split
      · exact graphMono_refl s
      · split
        · exact graphMono_refl s
        next rs _ => exact gUpsertCh_mono s retN rs
  | callSite cs => exact callModel_mono env s cs
  | load valN ptrN pointeeSt => exact loadModel_mono s valN ptrN pointeeSt
  | store valIsPtr valN ptrN =>
    show GraphMono s (applyInst env s (.store valIsPtr valN ptrN)).1
    unfold applyInst
    dsimp only
    split
    · exact graphMono_refl s
    · split
      · exact graphMono_refl s
      next vs _ =>
        split
        · exact graphMono_refl s
        next ps _ =>
          exact foldlMonoPair (storeStep vs) (storeStep_mono vs) (ascElems ps)
            (s, false)
  | gep valN ptrN srcSt off fieldNum =>
    show GraphMono s (applyInst env s (.gep valN ptrN srcSt off fieldNum)).1
    unfold applyInst
    dsimp only
    split
    · exact graphMono_refl s
    next ps _ =>
      exact foldlMonoTriple (gepStep env valN srcSt (decide (off < 0)) fieldNum)
        (gepStep_mono env valN srcSt (decide (off < 0)) fieldNum) (ascElems ps)
        (s, false, false)
  | bitcast dstN srcN =>
    show GraphMono s (applyInst env s (.bitcast dstN srcN)).1
    unfold applyInst
    dsimp only
    split
    · exact graphMono_refl s
    next rs _ => exact gUpsertCh_mono s dstN rs
  | phi dstN srcNs =>
    show GraphMono s (applyInst env s (.phi dstN srcNs)).1
    unfold applyInst
    dsimp only
    refine foldlMonoPair _ ?_ srcNs (s, false)
    intro p a
    dsimp only
    split
    · exact graphMono_refl p.1
    next rs _ => exact gUpsertCh_mono p.1 dstN rs
  | sel dstN srcNs =>
    show GraphMono s (applyInst env s (.sel dstN srcNs)).1
    unfold applyInst
    dsimp only
    refine foldlMonoPair _ ?_ srcNs (s, false)
    intro p a
    dsimp only
    split
    · exact graphMono_refl p.1
    next rs _ => exact gUpsertCh_mono p.1 dstN rs

theorem runOnFunctionModel_mono (env : Env) (s : AState) (f : FuncData) :
    GraphMono s (runOnFunctionModel env s f).1 := by
  unfold runOnFunctionModel
  apply graphMono_trans (b := { s with unvisited := s.unvisited.erase f.fid })
    (graphMono_of_eq rfl)
  refine foldlMonoPair _ ?_ f.body
    ({ s with unvisited := s.unvisited.erase f.fid }, false)
  intro p i
  dsimp only
  exact applyInst_mono env p.1 i

theorem processFuncs_mono (env : Env) (s : AState) :
    GraphMono s (processFuncs env s).1 := by
  unfold processFuncs
  refine foldlMonoPair _ ?_ env.funcs (s, false)
  intro p f
  dsimp only
  split
  · exact graphMono_refl p.1
  · exact runOnFunctionModel_mono env p.1 f

theorem foldlMonoStateFrom {α : Type _} (g : AState → α → AState)
    (hg : ∀ t a, GraphMono t (g t a)) (l : List α) (s p : AState)
    (h : GraphMono s p) : GraphMono s (l.foldl g p) :=
  graphMono_trans h (foldlMonoState g hg l p)

theorem shortcutEntry_mono (env : Env) (s : AState) (entry : Nat × List Nat) :
    GraphMono s (shortcutEntry env s entry) := by
  unfold shortcutEntry
  split
  · exact graphMono_refl s
  · split
    · exact graphMono_refl s
    · refine foldlMonoStateFrom _ ?_ _ s _ (graphMono_of_eq rfl)
      intro s2 node
      dsimp only
      exact graphMono_trans (gUpsertCh_mono s2 node _) (graphMono_of_eq rfl)

theorem shortcutCreate_mono (env : Env) (s : AState) :
    GraphMono s (shortcutCreate env s) := by
  unfold shortcutCreate
  split
  · exact foldlMonoState _ (shortcutEntry_mono env) s.retStructs s
  · exact graphMono_refl s

theorem doModulePassModel_mono (env : Env) (iteration : Nat) (s : AState) :
    GraphMono s (doModulePassModel env iteration s).1 := by
  unfold doModulePassModel
  dsimp only
  split
  · exact graphMono_trans (shortcutCreate_mono env s)
      (processFuncs_mono env (shortcutCreate env s))
  · exact shortcutCreate_mono env s

theorem passIter_mono (env : Env) :
    ∀ (k iteration : Nat) (s : AState), GraphMono s (passIter env k iteration s)
  | 0, _, s => graphMono_refl s
  | k + 1, iteration, s =>
    graphMono_trans (doModulePassModel_mono env iteration s)
      (passIter_mono env k (iteration + 1) (doModulePassModel env iteration s).1)

theorem passIter_succ_mono (env : Env) :
    ∀ (k iteration : Nat) (s : AState) (n : Nat),
      ptsOf (passIter env k iteration s).graph n ⊆
        ptsOf (passIter env (k + 1) iteration s).graph n
  | 0, iteration, s, n => doModulePassModel_mono env iteration s n
  | k + 1, iteration, s, n =>
    passIter_succ_mono env k (iteration + 1)
      (doModulePassModel env iteration s).1 n

/-- C9: points-to sets grow monotonically.  Every per-instruction transfer
function of runOnFunction (ret, call, load, store, GEP — including the
opaque-heap resize on its path — bitcast, phi, select), handleCall, and a
whole doModulePass only enlarge the points-to set of every node, and the
set of any node at the end of fixpoint pass k+1 contains the one at the
end of pass k. -/
theorem spec_c9_pts_monotonic :
    (∀ (env : Env) (s : AState) (i : Inst) (n : Nat),
        ptsOf s.graph n ⊆ ptsOf (applyInst env s i).1.graph n) ∧
    (∀ (s : AState) (cd : CallData) (cf : FuncData) (n : Nat),
        ptsOf s.graph n ⊆ ptsOf (handleCall s cd cf).1.graph n) ∧
    (∀ (env : Env) (iteration : Nat) (s : AState) (n : Nat),
        ptsOf s.graph n ⊆ ptsOf (doModulePassModel env iteration s).1.graph n) ∧
    (∀ (env : Env) (k iteration : Nat) (s : AState) (n : Nat),
        ptsOf (passIter env k iteration s).graph n ⊆
          ptsOf (passIter env (k + 1) iteration s).graph n) :=
  ⟨fun env s i n => applyInst_mono env s i n,
   fun s cd cf n => handleCall_mono s cd cf n,
   fun env iteration s n => doModulePassModel_mono env iteration s n,
   fun env k iteration s n => passIter_succ_mono env k iteration s n⟩

/-- C3 counterexample: isCompatibleType is not symmetric.  An integer
whose width equals a pointer's address space is compatible with that
pointer, but not conversely, so the claimed symmetry
compat(T1,T2) == compat(T2,T1) fails at this pair. -/
theorem spec_c3_compat_symm_counterexample :
    isCompatibleType (.integer 32) (.pointer .void 32) = true ∧
    isCompatibleType (.pointer .void 32) (.integer 32) = false ∧
    ¬ compatSpecSymmetric := by
  have h1 : isCompatibleType (.integer 32) (.pointer .void 32) = true := by
    simp [isCompatibleType, ltypeBeq]
  have h2 : isCompatibleType (.pointer .void 32) (.integer 32) = false := by
    simp [isCompatibleType, ltypeBeq]
  refine ⟨h1, h2, fun hsym => ?_⟩
  have h3 := hsym (.integer 32) (.pointer .void 32)
  rw [h1, h2] at h3
  exact absurd h3 (by simp)

/-- C3 amended: the type-compatibility relation used for fallback callee
matching is reflexive — compat(T,T) holds for every type T — but it is
not symmetric (see the counterexample). -/
theorem spec_c3_compat_refl (T : LType) : isCompatibleType T T = true := by
  rw [isCompatibleType.eq_def]
  simp [ltypeBeq_refl]

/-- C4 counterexample: for the object group of nf4 (base 10, expanded
size 2, offset 0), a field number of 2 escapes the clamp (the guard uses
a strict comparison) and inserts index 12, one past the group, while the
claimed value is 11; a field number of 3 triggers the clamp but yields
the absolute index allocSize - 1 = 1, far outside the group, instead of
the claimed base-relative 11. -/
theorem spec_c4_gep_clamp_counterexample :
    gepInsertIndex nf4 (nf4.objSize 10) 10 2 = 12 ∧
    gepSpecIndex nf4 10 2 = 11 ∧
    ¬ (nf4.objBase 10 ≤ 12 ∧ 12 < nf4.objBase 10 + nf4.objSize 10) ∧
    gepInsertIndex nf4 (nf4.objSize 10) 10 3 = 1 ∧
    gepSpecIndex nf4 10 3 = 11 := by
  decide

/-- C4 amended: the GetElementPtr transfer function inserts idx + k as
long as getObjectOffset(idx) + k does not exceed the allocated size; that
index is base-relative and inside the object group exactly when
offset + k is strictly below the size; when offset + k equals the size
the unclamped index base + size (one past the group) is inserted; and
when offset + k exceeds the size the inserted index is the absolute
index size - 1, which is not base-relative. -/
theorem spec_c4_gep_clamp_amended (nf : NodeFactory) (idx k : Nat)
    (hco : nf.objBase idx + nf.objOffset idx = idx) :
    (nf.objOffset idx + k < nf.objSize idx →
      gepInsertIndex nf (nf.objSize idx) idx k =
        nf.objBase idx + (nf.objOffset idx + k) ∧
      nf.objBase idx ≤ gepInsertIndex nf (nf.objSize idx) idx k ∧
      gepInsertIndex nf (nf.objSize idx) idx k <
        nf.objBase idx + nf.objSize idx) ∧
    (nf.objOffset idx + k = nf.objSize idx →
      gepInsertIndex nf (nf.objSize idx) idx k =
        nf.objBase idx + nf.objSize idx) ∧
    (nf.objSize idx < nf.objOffset idx + k →
      gepInsertIndex nf (nf.objSize idx) idx k = nf.objSize idx - 1) := by
  unfold gepInsertIndex
  refine ⟨fun h => ?_, fun h => ?_, fun h => ?_⟩
  · rw [if_neg (by omega)]
    omega
  · rw [if_neg (by omega)]
    omega
  · rw [if_pos (by omega)]

theorem spec_c4_gep_clamp_amended_witness :
    nf4.objBase 10 + nf4.objOffset 10 = 10 ∧
    nf4.objOffset 10 + 1 < nf4.objSize 10 ∧
    gepInsertIndex nf4 (nf4.objSize 10) 10 1 =
      nf4.objBase 10 + (nf4.objOffset 10 + 1) :=
  ⟨by decide, by decide,
    ((spec_c4_gep_clamp_amended nf4 10 1 (by decide)).1 (by decide)).1⟩

theorem typeAccept_iff (ats : List LType) (rt : LType) (F : FuncSig) :
    typeAccept ats rt F = true ↔
      F.intrinsic = false ∧ matchParams F.paramTypes ats = true ∧
      (F.isVarArg = false → F.paramTypes.length = ats.length ∧
        isCompatibleType F.retType rt = true) := by
  unfold typeAccept
  cases hv : F.isVarArg with
  | true => simp [hv, Bool.and_eq_true, Bool.not_eq_true']
  | false =>
    by_cases hl : F.paramTypes.length = ats.length
    · by_cases hr : isCompatibleType F.retType rt = true
      · simp [hv, hl, hr, Bool.and_eq_true, Bool.not_eq_true']
      · simp [hv, hl, hr, Bool.and_eq_true, Bool.not_eq_true']
    · simp [hv, hl]

/-- C8 counterexample: findCalleesByType accepts a variadic candidate
without ever checking its return type.  sigVar is variadic and has a
floating-point return type incompatible with the call's void type, yet
it is accepted, so the claimed unconditional return-type rejection
fails. -/
theorem spec_c8_type_resolution_counterexample :
    typeAccept cd8.argTypes cd8.retType sigVar = true ∧
    (7 : Nat) ∈ findCalleesByType [(7, sigVar)] cd8 ∅ ∧
    isCompatibleType sigVar.retType cd8.retType = false ∧
    sigVar.isVarArg = true ∧ sigVar.intrinsic = false := by
  refine ⟨by decide, by decide, ?_, rfl, rfl⟩
  simp [sigVar, cd8, isCompatibleType, ltypeBeq]

/-- C8 amended: a function f is in the type-based candidate set exactly
when it was already there or some address-taken signature of f is not an
intrinsic, has every formal pairwise compatible with the corresponding
actual, and — only when it is not variadic — has the call site's arity
and a return type compatible with the call's type; for variadic
candidates the arity and return-type rejections are skipped. -/
theorem spec_c8_type_resolution_amended (atf : List (Nat × FuncSig))
    (cd : CallData) (FS : Finset Nat) (f : Nat) :
    f ∈ findCalleesByType atf cd FS ↔
      f ∈ FS ∨ ∃ sig, (f, sig) ∈ atf ∧ sig.intrinsic = false ∧
        matchParams sig.paramTypes cd.argTypes = true ∧
        (sig.isVarArg = false → sig.paramTypes.length = cd.argTypes.length ∧
          isCompatibleType sig.retType cd.retType = true) := by
  unfold findCalleesByType
  simp only [Finset.mem_union, List.mem_toFinset, List.mem_map,
    List.mem_filter]
  constructor
  · rintro (hFS | ⟨p, ⟨hp, hacc⟩, hpf⟩)
    · exact Or.inl hFS
    · refine Or.inr ⟨p.2, ?_, (typeAccept_iff cd.argTypes cd.retType p.2).mp hacc⟩
      cases hpf
      exact hp
  · rintro (hFS | ⟨sig, hmem, hrest⟩)
    · exact Or.inl hFS
    · exact Or.inr ⟨(f, sig), ⟨hmem,
        (typeAccept_iff cd.argTypes cd.retType sig).mpr hrest⟩, rfl⟩

theorem spec_c8_type_resolution_amended_witness :
    (7 : Nat) ∈ findCalleesByType [(7, sigVar)] cd8 ∅ :=
  (spec_c8_type_resolution_amended [(7, sigVar)] cd8 ∅ 7).mpr
    (Or.inr ⟨sigVar, List.mem_singleton.mpr rfl, rfl, rfl,
      fun h => absurd h (by decide)⟩)

theorem mem_lt_getSize {rs : Finset Nat} {x : Nat} (hx : x ∈ rs) :
    x < getSize rs := by
  unfold getSize
  rw [dif_pos ⟨x, hx⟩]
  exact Nat.lt_succ_of_le (Finset.le_max' rs x hx)

theorem findFirst_of_nonempty {rs : Finset Nat} (h : rs.Nonempty) :
    findFirst rs = rs.min' h := dif_pos h

theorem min'_lt_getSize {rs : Finset Nat} (h : rs.Nonempty) :
    rs.min' h < getSize rs :=
  mem_lt_getSize (rs.min'_mem h)

theorem findNext_mem_or (rs : Finset Nat) (i : Nat) :
    findNext rs i ∈ rs ∨ findNext rs i = getSize rs := by
  unfold findNext
  split
  next h =>
    exact Or.inl (Finset.mem_of_mem_filter _ ((rs.filter fun x => i < x).min'_mem h))
  next h => exact Or.inr rfl

theorem findNext_gt {rs : Finset Nat} {i : Nat} (h : i < getSize rs) :
    i < findNext rs i := by
  unfold findNext
  split
  next hne =>
    have := (rs.filter fun x => i < x).min'_mem hne
    exact (Finset.mem_filter.mp this).2
  next hne => exact h

theorem findNext_le {rs : Finset Nat} {i o : Nat} (ho : o ∈ rs)
    (hio : i < o) : findNext rs i ≤ o := by
  unfold findNext
  rw [dif_pos ⟨o, Finset.mem_filter.mpr ⟨ho, hio⟩⟩]
  exact Finset.min'_le _ o (Finset.mem_filter.mpr ⟨ho, hio⟩)

theorem findNext_all_le {rs : Finset Nat} {i : Nat}
    (h : ∀ x ∈ rs, ¬ i < x) : findNext rs i = getSize rs := by
  unfold findNext
  rw [dif_neg]
  rintro ⟨x, hx⟩
  rcases Finset.mem_filter.mp hx with ⟨hx1, hx2⟩
  exact h x hx1 hx2

theorem retBindGo_stop (rs : Finset Nat) (an : Bool) (cn endB : Nat) :
    ∀ (fuel idx : Nat) (p : AState × Bool), ¬ idx < endB →
      retBindGo rs an cn endB fuel idx p = p
  | 0, _, _, _ => rfl
  | _ + 1, idx, p, h => by
    unfold retBindGo
    rw [if_neg h]

theorem retBindGo_all (an : Bool) (cn : Nat) (rs : Finset Nat) :
    ∀ (fuel idx : Nat) (p : AState × Bool),
      (∀ x ∈ rs, substitutable p.1.nf an x = false) →
      (idx ∈ rs ∨ getSize rs ≤ idx) →
      getSize rs ≤ idx + fuel →
      ∀ o ∈ rs, idx ≤ o →
        o ∈ ptsOf (retBindGo rs an cn (getSize rs) fuel idx p).1.graph cn
  | 0, idx, _, _, _, hfuel, o, ho, hio =>
    absurd (mem_lt_getSize ho) (by omega)
  | fuel + 1, idx, p, hsub, hinv, hfuel, o, ho, hio => by
    have hidx : idx < getSize rs := lt_of_le_of_lt hio (mem_lt_getSize ho)
    have hidxmem : idx ∈ rs := by
      rcases hinv with h | h
      · exact h
      · omega
    have hcond : (p.1.nf.heapObj idx && p.1.nf.opqObj idx && an) = false :=
      hsub idx hidxmem
    unfold retBindGo
    simp only [hidx, if_true, hcond, Bool.false_eq_true, if_false]
    by_cases heq : o = idx
    · subst heq
      apply retBindGo_mono rs an cn (getSize rs) fuel (findNext rs o)
        ((gUpsertCh p.1 cn {o}).1, p.2 || (gUpsertCh p.1 cn {o}).2) cn
      show o ∈ ptsOf (gUpsertCh p.1 cn {o}).1.graph cn
      unfold gUpsertCh ptsOf
      simp
    · have hio' : idx < o := lt_of_le_of_ne hio (fun h => heq h.symm)
      refine retBindGo_all an cn rs fuel (findNext rs idx) _ ?_ ?_ ?_ o ho
        (findNext_le ho hio')
      · exact hsub
      · rcases findNext_mem_or rs idx with h | h
        · exact Or.inl h
        · exact Or.inr (le_of_eq h.symm)
      · have := findNext_gt hidx
        omega

/-- C7 counterexample: in handleCall's return binding over
pts(retNode) = the set of nodes 5 and 7, node 5 is an opaque heap object
and the callee cf7 is alloc-named, so 5 is substituted by the fresh
object 10; the loop then continues from find_next(10), which is past the
bound, so the element 7 — which the claim says is inserted as itself —
never reaches pts(valueNode(CS)). -/
theorem spec_c7_ret_binding_counterexample :
    7 ∈ ptsOf s7.graph 20 ∧
    substitutable s7.nf (nameHasAlloc cf7.name) 7 = false ∧
    substitutable s7.nf (nameHasAlloc cf7.name) 5 = true ∧
    7 ∉ ptsOf (handleCall s7 cd7 cf7).1.graph 21 ∧
    10 ∈ ptsOf (handleCall s7 cd7 cf7).1.graph 21 := by
  decide

/-- C7 amended: the return binding processes pts(retNode(CF)) in
ascending order.  When no element is an opaque heap object of an
alloc-named callee, every element is inserted into pts(valueNode(CS)).
When the first element is substituted and the fresh index exceeds every
element — as it always does, being freshly allocated — the loop inserts
only the fresh opaque heap object and stops, skipping the remaining
elements. -/
theorem spec_c7_ret_binding_amended (s : AState) (allocName : Bool)
    (callNode : Nat) (rs : Finset Nat) :
    ((∀ x ∈ rs, substitutable s.nf allocName x = false) →
      ∀ o ∈ rs, o ∈ ptsOf (retBind s allocName callNode rs).1.graph callNode) ∧
    (∀ h : rs.Nonempty, substitutable s.nf allocName (rs.min' h) = true →
      (∀ x ∈ rs, x < s.nf.nextIdx) →
      ptsOf (retBind s allocName callNode rs).1.graph callNode =
        ptsOf s.graph callNode ∪ {s.nf.nextIdx}) := by
  constructor
  · intro hsub o ho
    unfold retBind
    have hne : rs.Nonempty := ⟨o, ho⟩
    rw [findFirst_of_nonempty hne]
    exact retBindGo_all allocName callNode rs (getSize rs + 1) (rs.min' hne)
      (s, false) hsub (Or.inl (rs.min'_mem hne)) (by omega) o ho
      (Finset.min'_le rs o ho)
  · intro hne hmin hfresh
    unfold retBind
    rw [findFirst_of_nonempty hne]
    have hlt : rs.min' hne < getSize rs := min'_lt_getSize hne
    have hcond : (s.nf.heapObj (rs.min' hne) && s.nf.opqObj (rs.min' hne) &&
        allocName) = true := hmin
    unfold retBindGo
    simp only [hlt, if_true, hcond, createOpaque]
    have hnext : findNext rs s.nf.nextIdx = getSize rs :=
      findNext_all_le (fun x hx => by
        have := hfresh x hx
        omega)
    rw [hnext, retBindGo_stop rs allocName callNode (getSize rs)
      (getSize rs) (getSize rs) _ (lt_irrefl _)]
    unfold gUpsertCh ptsOf
    simp

theorem spec_c7_ret_binding_amended_witness :
    3 ∈ ptsOf (retBind (emptyState nfNop) false 21 {3}).1.graph 21 ∧
    ptsOf (retBind s7 true 21 {5, 7}).1.graph 21 =
      ptsOf s7.graph 21 ∪ {10} :=
  ⟨(spec_c7_ret_binding_amended (emptyState nfNop) false 21 {3}).1
      (by decide) 3 (by decide),
   (spec_c7_ret_binding_amended s7 true 21 {5, 7}).2
      (by decide) (by decide) (by decide)⟩

/-- C6 counterexample: at the indirect call site 1 of env6 the callee
operand's node 4 is a key of the graph holding the empty set, so its
points-to set is empty; the type-based candidate set is nonempty, yet
the transfer function neither populates calleeByType for the site nor
records the operand as unresolved — the fallback runs only when the key
is absent. -/
theorem spec_c6_empty_pts_counterexample :
    s6.graph (env6.csData 1).calleeNode = some ∅ ∧
    (findCalleesByType env6.addressTaken (env6.csData 1)
      ((s6.calleeByType 1).getD ∅)).Nonempty ∧
    (applyInst env6 s6 (.callSite 1)).1.calleeByType 1 = none ∧
    (env6.csData 1).calleeNode ∉
      (applyInst env6 s6 (.callSite 1)).1.unresolvedFPts := by
  decide

/-- C6 amended: at an indirect, non-inline-asm call site the type-based
fallback runs exactly when the callee operand's node is absent from the
points-to graph: then calleeByType receives the type-based candidates and
the operand is recorded as unresolved precisely when that set is nonempty
(or it was already recorded).  When the node is present with an empty
set, the transfer function changes nothing and reports no change. -/
theorem spec_c6_fallback_on_absent_amended (env : Env) (s : AState)
    (cs : Nat) (hind : (env.csData cs).calledFunction = none)
    (hasm : (env.csData cs).inlineAsm = false) :
    (s.graph (env.csData cs).calleeNode = none →
      (applyInst env s (.callSite cs)).1.calleeByType cs =
        some (findCalleesByType env.addressTaken (env.csData cs)
          ((s.calleeByType cs).getD ∅)) ∧
      ((env.csData cs).calleeNode ∈
          (applyInst env s (.callSite cs)).1.unresolvedFPts ↔
        (findCalleesByType env.addressTaken (env.csData cs)
          ((s.calleeByType cs).getD ∅)).Nonempty ∨
        (env.csData cs).calleeNode ∈ s.unresolvedFPts)) ∧
    (s.graph (env.csData cs).calleeNode = some ∅ →
      applyInst env s (.callSite cs) = (s, false)) := by
  have hcall : applyInst env s (.callSite cs) = callModel env s cs := rfl
  constructor
  · intro habs
    rw [hcall]
    unfold callModel
    simp only [hasm, Bool.false_eq_true, if_false, hind, habs]
    by_cases hne : (findCalleesByType env.addressTaken (env.csData cs)
        ((s.calleeByType cs).getD ∅)).Nonempty
    · simp only [hne, if_true, ite_true]
      constructor
      · simp
      · simp [Finset.mem_insert, hne]
    · simp only [hne, if_false, ite_false]
      constructor
      · simp
      · simp [hne]
  · intro hemp
    rw [hcall]
    unfold callModel
    simp only [hasm, Bool.false_eq_true, if_false, hind, hemp]
    rfl

theorem spec_c6_fallback_on_absent_amended_witness :
    (applyInst env6 (emptyState nfNop) (.callSite 1)).1.calleeByType 1 =
      some (findCalleesByType env6.addressTaken (env6.csData 1)
        (((emptyState nfNop).calleeByType 1).getD ∅)) :=
  ((spec_c6_fallback_on_absent_amended env6 (emptyState nfNop) 1 rfl rfl).1 rfl).1

theorem corePres_refl (s : AState) : CorePres s s :=
  ⟨rfl, rfl, rfl, rfl, rfl, rfl, rfl, rfl, rfl, rfl, rfl⟩

theorem corePres_trans {a b c : AState} (h1 : CorePres a b)
    (h2 : CorePres b c) : CorePres a c :=
  ⟨h2.1.trans h1.1, h2.2.1.trans h1.2.1, h2.2.2.1.trans h1.2.2.1,
   h2.2.2.2.1.trans h1.2.2.2.1, h2.2.2.2.2.1.trans h1.2.2.2.2.1,
   h2.2.2.2.2.2.1.trans h1.2.2.2.2.2.1,
   h2.2.2.2.2.2.2.1.trans h1.2.2.2.2.2.2.1,
   h2.2.2.2.2.2.2.2.1.trans h1.2.2.2.2.2.2.2.1,
   h2.2.2.2.2.2.2.2.2.1.trans h1.2.2.2.2.2.2.2.2.1,
   h2.2.2.2.2.2.2.2.2.2.1.trans h1.2.2.2.2.2.2.2.2.2.1,
   h2.2.2.2.2.2.2.2.2.2.2.trans h1.2.2.2.2.2.2.2.2.2.2⟩

theorem corePres_gUpsertCh (s : AState) (n : Nat) (v : Finset Nat) :
    CorePres s (gUpsertCh s n v).1 :=
  ⟨rfl, rfl, rfl, rfl, rfl, rfl, rfl, rfl, rfl, rfl, rfl⟩

theorem bindArgs_core : ∀ (l : List (Nat × Nat)) (s : AState),
    CorePres s (bindArgs s l).1
  | [], s => corePres_refl s
  | (argN, formalN) :: rest, s => by
    simp only [bindArgs]
    cases hg : s.graph argN with
    | none => simpa [hg] using bindArgs_core rest s
    | some vs =>
      by_cases hts : formalN ∈ s.typeShortcutsObj
      · simpa [hg, hts] using bindArgs_core rest s
      · simp only [hg, hts, if_neg, if_false]
        exact corePres_trans (corePres_gUpsertCh s formalN vs)
          (bindArgs_core rest (gUpsertCh s formalN vs).1)

theorem retBindGo_core (rs : Finset Nat) (an : Bool) (cn endB : Nat) :
    ∀ (fuel idx : Nat) (p : AState × Bool),
      CorePres p.1 (retBindGo rs an cn endB fuel idx p).1
  | 0, _, p => corePres_refl p.1
  | fuel + 1, idx, p => by
    unfold retBindGo
    dsimp only
    split
    · split
      · apply corePres_trans _ (retBindGo_core rs an cn endB fuel _ _)
        exact corePres_trans (corePres_refl _)
          (corePres_gUpsertCh { p.1 with nf := (createOpaque p.1.nf).2 } cn _)
      · apply corePres_trans _ (retBindGo_core rs an cn endB fuel _ _)
        exact corePres_gUpsertCh p.1 cn {idx}
    · exact corePres_refl p.1

theorem handleCall_core (s : AState) (cd : CallData) (cf : FuncData) :
    CorePres s (handleCall s cd cf).1 := by
  unfold handleCall
  dsimp only
  split
  · exact corePres_refl s
  split
  · exact corePres_refl s
  split
  · exact corePres_refl s
  have hargs : CorePres s (if cf.isVarArg then (s, false)
      else bindArgs s (cd.argNodes.zip cf.argNodes)).1 := by
    split
    · exact corePres_refl s
    · exact bindArgs_core _ s
  split
  · exact hargs
  · split
    · exact hargs
    · exact corePres_trans hargs
        (retBindGo_core _ _ cd.valueNode _ _ _ _)

theorem structPres_refl (s : AState) : StructPres s s := ⟨rfl, rfl, rfl, rfl, rfl⟩

theorem structPres_trans {a b c : AState} (h1 : StructPres a b)
    (h2 : StructPres b c) : StructPres a c :=
  ⟨h2.1.trans h1.1, h2.2.1.trans h1.2.1, h2.2.2.1.trans h1.2.2.1,
   h2.2.2.2.1.trans h1.2.2.2.1, h2.2.2.2.2.trans h1.2.2.2.2⟩

theorem structPres_of_core {a b : AState} (h : CorePres a b) : StructPres a b :=
  ⟨h.2.2.2.1, h.2.2.2.2.2.2.1, h.2.2.2.2.2.2.2.2.1,
   h.2.2.2.2.2.2.2.2.2.1, h.2.2.2.2.2.2.2.2.2.2⟩

theorem addReachable_struct (s : AState) (f : Nat) :
    StructPres s (addReachable s f) := by
  unfold addReachable
  split
  · exact structPres_refl s
  · exact ⟨rfl, rfl, rfl, rfl, rfl⟩

theorem indirectStep_struct (env : Env) (cs : Nat) (cd : CallData)
    (p : AState × Bool) (idx : Nat) :
    StructPres p.1 (indirectStep env cs cd p idx).1 := by
  unfold indirectStep
  dsimp only
  split
  · exact structPres_refl p.1
  split
  · exact structPres_refl p.1
  next f _ =>
    apply structPres_trans (b := calleesAdd (addReachable p.1 f) cs f) _
      (structPres_of_core (handleCall_core _ cd (env.funcData f)))
    apply structPres_trans (b := addReachable p.1 f)
      (addReachable_struct p.1 f)
    exact ⟨rfl, rfl, rfl, rfl, rfl⟩

theorem callModel_struct (env : Env) (s : AState) (cs : Nat) :
    StructPres s (callModel env s cs).1 := by
  unfold callModel
  dsimp only
  split
  · exact structPres_refl s
  split
  next cf _ =>
    apply structPres_trans
      (b := calleesAdd (addReachable s (env.funcDef cf)) cs (env.funcDef cf)) _
      (structPres_of_core (handleCall_core _ (env.csData cs)
        (env.funcData (env.funcDef cf))))
    apply structPres_trans (b := addReachable s (env.funcDef cf))
      (addReachable_struct s (env.funcDef cf))
    exact ⟨rfl, rfl, rfl, rfl, rfl⟩
  · split
    next rs _ =>
      have hfold : StructPres s ((ascElems rs).foldl
          (indirectStep env cs (env.csData cs)) (s, false)).1 :=
        foldlPreserve (indirectStep env cs (env.csData cs))
          (fun p => StructPres s p.1)
          (fun p a hp => structPres_trans hp
            (indirectStep_struct env cs (env.csData cs) p a))
          (ascElems rs) (s, false) (structPres_refl s)
      split
      · exact structPres_trans hfold ⟨rfl, rfl, rfl, rfl, rfl⟩
      · exact hfold
    · split
      · exact ⟨rfl, rfl, rfl, rfl, rfl⟩
      · exact ⟨rfl, rfl, rfl, rfl, rfl⟩

theorem loadShortcut_struct (s : AState) (valN : Nat)
    (pointeeSt : Option Nat) : StructPres s (loadShortcut s valN pointeeSt).1 := by
  cases pointeeSt with
  | none => exact structPres_refl s
  | some st =>
    show StructPres s (loadShortcut s valN (some st)).1
    unfold loadShortcut
    dsimp only
    cases (s.typeShortcuts.filter (fun q => q.1 = st)).head? with
    | none => exact structPres_refl s
    | some q => exact ⟨rfl, rfl, rfl, rfl, rfl⟩

theorem loadStep_struct (valN : Nat) (ps : Finset Nat)
    (p : AState × Bool × Bool) (idx : Nat) :
    StructPres p.1 (loadStep valN ps p idx).1 := by
  unfold loadStep
  split
  · exact structPres_refl p.1
  split
  · exact ⟨rfl, rfl, rfl, rfl, rfl⟩
  · split
    · exact ⟨rfl, rfl, rfl, rfl, rfl⟩
    · exact structPres_refl p.1

theorem storeStep_struct (vs : Finset Nat) (p : AState × Bool) (idx : Nat) :
    StructPres p.1 (storeStep vs p idx).1 := by
  unfold storeStep
  split
  · exact structPres_refl p.1
  · exact ⟨rfl, rfl, rfl, rfl, rfl⟩

theorem gepStep_struct (env : Env) (valN : Nat) (srcSt : Option Nat)
    (negOff : Bool) (fieldNum : Nat) (p : AState × Bool × Bool) (idx : Nat) :
    StructPres p.1 (gepStep env valN srcSt negOff fieldNum p idx).1 := by
  unfold gepStep
  dsimp only
  split
  · exact structPres_refl p.1
  split
  · exact ⟨rfl, rfl, rfl, rfl, rfl⟩
  · split
    · exact structPres_refl p.1
    · have hre : StructPres p.1 (gepResize env srcSt p.1 idx
          (p.1.nf.objSize idx)) := by
        unfold gepResize
        split
        · exact ⟨rfl, rfl, rfl, rfl, rfl⟩
        · exact structPres_refl p.1
      split
      · exact hre
      · exact structPres_trans hre ⟨rfl, rfl, rfl, rfl, rfl⟩

theorem loadModel_struct (s : AState) (valN ptrN : Nat)
    (pointeeSt : Option Nat) : StructPres s (loadModel s valN ptrN pointeeSt).1 := by
  unfold loadModel
  dsimp only
  split
  · exact structPres_refl s
  split
  · exact loadShortcut_struct s valN pointeeSt
  next ps _ =>
    refine structPres_trans (loadShortcut_struct s valN pointeeSt)
      (foldlPreserve (loadStep valN ps) (fun p => StructPres
        (loadShortcut s valN pointeeSt).1 p.1) ?_ (ascElems ps) _
        (structPres_refl _))
    intro p a hp
    exact structPres_trans hp (loadStep_struct valN ps p a)

theorem applyInst_struct (env : Env) (s : AState) (i : Inst) :
    StructPres s (applyInst env s i).1 := by
  cases i with
  | skipped => exact structPres_refl s
  | alloca => exact structPres_refl s
  | unhandled => exact structPres_refl s
  | ret rv retN =>
    cases rv with
    | none => exact structPres_refl s
    | some rvN =>
      show StructPres s (applyInst env s (.ret (some rvN) retN)).1
      unfold applyInst
      dsimp only
      split
      · exact structPres_refl s
      · split
        · exact structPres_refl s
        next rs _ => exact ⟨rfl, rfl, rfl, rfl, rfl⟩
  | callSite cs => exact callModel_struct env s cs
  | load valN ptrN pointeeSt => exact loadModel_struct s valN ptrN pointeeSt
  | store valIsPtr valN ptrN =>
    show StructPres s (applyInst env s (.store valIsPtr valN ptrN)).1
    unfold applyInst
    dsimp only
    split
    · exact structPres_refl s
    · split
      · exact structPres_refl s
      next vs _ =>
        split
        · exact structPres_refl s
        next ps _ =>
          refine foldlPreserve (storeStep vs) (fun p => StructPres s p.1) ?_
            (ascElems ps) (s, false) (structPres_refl s)
          intro p a hp
          exact structPres_trans hp (storeStep_struct vs p a)
  | gep valN ptrN srcSt off fieldNum =>
    show StructPres s (applyInst env s (.gep valN ptrN srcSt off fieldNum)).1
    unfold applyInst
    dsimp only
    split
    · exact structPres_refl s
    next ps _ =>
      refine foldlPreserve (gepStep env valN srcSt (decide (off < 0)) fieldNum)
        (fun p => StructPres s p.1) ?_ (ascElems ps) (s, false, false)
        (structPres_refl s)
      intro p a hp
      exact structPres_trans hp
        (gepStep_struct env valN srcSt (decide (off < 0)) fieldNum p a)
  | bitcast dstN srcN =>
    show StructPres s (applyInst env s (.bitcast dstN srcN)).1
    unfold applyInst
    dsimp only
    split
    · exact structPres_refl s
    next rs _ => exact ⟨rfl, rfl, rfl, rfl, rfl⟩
  | phi dstN srcNs =>
    show StructPres s (applyInst env s (.phi dstN srcNs)).1
    unfold applyInst
    dsimp only
    refine foldlPreserve _ (fun p => StructPres s p.1) ?_ srcNs (s, false)
      (structPres_refl s)
    intro p a hp
    dsimp only
    split
    · exact hp
    next rs _ => exact structPres_trans hp ⟨rfl, rfl, rfl, rfl, rfl⟩
  | sel dstN srcNs =>
    show StructPres s (applyInst env s (.sel dstN srcNs)).1
    unfold applyInst
    dsimp only
    refine foldlPreserve _ (fun p => StructPres s p.1) ?_ srcNs (s, false)
      (structPres_refl s)
    intro p a hp
    dsimp only
    split
    · exact hp
    next rs _ => exact structPres_trans hp ⟨rfl, rfl, rfl, rfl, rfl⟩

theorem runOnFunctionModel_struct (env : Env) (s : AState) (f : FuncData) :
    StructPres s (runOnFunctionModel env s f).1 := by
  unfold runOnFunctionModel
  apply structPres_trans (b := { s with unvisited := s.unvisited.erase f.fid })
    ⟨rfl, rfl, rfl, rfl, rfl⟩
  refine foldlPreserve _
    (fun (p : AState × Bool) =>
      StructPres { s with unvisited := s.unvisited.erase f.fid } p.1)
    ?_ f.body _ (structPres_refl _)
  intro p i hp
  dsimp only
  exact structPres_trans hp (applyInst_struct env p.1 i)

theorem processFuncs_struct (env : Env) (s : AState) :
    StructPres s (processFuncs env s).1 := by
  unfold processFuncs
  refine foldlPreserve _ (fun p => StructPres s p.1) ?_ env.funcs (s, false)
    (structPres_refl s)
  intro p f hp
  dsimp only
  split
  · exact hp
  · exact structPres_trans hp (runOnFunctionModel_struct env p.1 f)

theorem shortcutEntry_fields (env : Env) (t : AState) (p : Nat × List Nat) :
    (shortcutEntry env t p).argStructs = t.argStructs ∧
    (shortcutEntry env t p).globalStructs = t.globalStructs ∧
    (shortcutEntry env t p).retStructs = t.retStructs ∧
    (t.typeShortcuts ≠ [] → (shortcutEntry env t p).typeShortcuts ≠ []) ∧
    ((shortcutEntry env t p).typeShortcuts = [] → t.typeShortcuts = [] ∧
      ((assocFind t.argStructs p.1).isSome = true → p.1 ∈ t.globalStructs)) := by
  unfold shortcutEntry
  cases hf : assocFind t.argStructs p.1 with
  | none =>
    exact ⟨rfl, rfl, rfl, fun h => h,
      fun h => ⟨h, fun hs => absurd hs (by simp)⟩⟩
  | some argNs =>
    dsimp only
    by_cases hm : p.1 ∈ t.globalStructs
    · rw [if_pos hm]
      exact ⟨rfl, rfl, rfl, fun h => h, fun h => ⟨h, fun _ => hm⟩⟩
    · rw [if_neg hm]
      have hfold := foldlPreserve
        (fun s2 node =>
          let s3 := (gUpsertCh s2 node {t.nf.nextIdx}).1
          { s3 with typeShortcutsObj := insert node s3.typeShortcutsObj })
        (fun u => u.argStructs = t.argStructs ∧
          u.globalStructs = t.globalStructs ∧ u.retStructs = t.retStructs ∧
          u.typeShortcuts = t.typeShortcuts ++ [(p.1, t.nf.nextIdx)])
        (fun u a hu => ⟨hu.1, hu.2.1, hu.2.2.1, hu.2.2.2⟩)
        (p.2 ++ argNs)
        { t with nf := allocGroup t.nf (env.stSize p.1),
                 typeShortcuts := t.typeShortcuts ++ [(p.1, t.nf.nextIdx)] }
        ⟨rfl, rfl, rfl, rfl⟩
      refine ⟨hfold.1, hfold.2.1, hfold.2.2.1, fun _ => ?_, fun h => ?_⟩
      · rw [hfold.2.2.2]
        simp
      · rw [hfold.2.2.2] at h
        simp at h

theorem shortcutFold_fields (env : Env) :
    ∀ (l : List (Nat × List Nat)) (t : AState),
      (l.foldl (shortcutEntry env) t).argStructs = t.argStructs ∧
      (l.foldl (shortcutEntry env) t).globalStructs = t.globalStructs ∧
      (l.foldl (shortcutEntry env) t).retStructs = t.retStructs ∧
      ((l.foldl (shortcutEntry env) t).typeShortcuts = [] →
        t.typeShortcuts = [] ∧
        ∀ p ∈ l, (assocFind t.argStructs p.1).isSome = true →
          p.1 ∈ t.globalStructs)
  | [], t => ⟨rfl, rfl, rfl,
      fun h => ⟨h, fun p hp => absurd hp (List.not_mem_nil p)⟩⟩
  | p :: l, t => by
    obtain ⟨ha1, hg1, hr1, _, hts2⟩ := shortcutEntry_fields env t p
    obtain ⟨ha2, hg2, hr2, hts3⟩ :=
      shortcutFold_fields env l (shortcutEntry env t p)
    rw [List.foldl_cons]
    refine ⟨ha2.trans ha1, hg2.trans hg1, hr2.trans hr1, fun h => ?_⟩
    obtain ⟨hnil1, hall⟩ := hts3 h
    obtain ⟨hnil0, hp⟩ := hts2 hnil1
    refine ⟨hnil0, fun q hq => ?_⟩
    rcases List.mem_cons.mp hq with hq1 | hq1
    · subst hq1
      exact hp
    · intro hsq
      have := hall q hq1
      rw [ha1, hg1] at this
      exact this hsq

theorem shortcutCreate_ready (env : Env) (s : AState) :
    shortcutsReady (shortcutCreate env s) := by
  unfold shortcutCreate
  split
  next hemp =>
    by_cases hnil : (s.retStructs.foldl (shortcutEntry env) s).typeShortcuts = []
    · right
      obtain ⟨ha, hg, hr, hts⟩ := shortcutFold_fields env s.retStructs s
      obtain ⟨_, hall⟩ := hts hnil
      intro p hp hsome
      rw [hr] at hp
      rw [hg]
      exact hall p hp (by rw [ha] at hsome; exact hsome)
    · exact Or.inl hnil
  next hemp => 
    unfold shortcutsReady
    rw [List.isEmpty_iff] at hemp
    exact Or.inl hemp

theorem shortcutCreate_of_ready (env : Env) (s : AState)
    (h : shortcutsReady s) : shortcutCreate env s = s := by
  unfold shortcutCreate
  split
  next hemp =>
    rcases h with h | h
    · exact absurd (List.isEmpty_iff.mp hemp) h
    · refine foldlFix (shortcutEntry env) s s.retStructs (fun p hp => ?_)
      unfold shortcutEntry
      cases hf : assocFind s.argStructs p.1 with
      | none => rfl
      | some argNs =>
        dsimp only
        rw [if_pos (h p hp (by rw [hf]; rfl))]
  next hemp => rfl

theorem ready_of_structPres {s s' : AState} (hp : StructPres s s')
    (h : shortcutsReady s) : shortcutsReady s' := by
  obtain ⟨_, hts, hr, ha, hg⟩ := hp
  rcases h with h | h
  · exact Or.inl (by rw [hts]; exact h)
  · right
    intro p hpmem hsome
    rw [hr] at hpmem
    rw [hg]
    exact h p hpmem (by rw [ha] at hsome; exact hsome)

theorem doModulePass_ready (env : Env) (iteration : Nat) (s : AState) :
    shortcutsReady (doModulePassModel env iteration s).1 := by
  unfold doModulePassModel
  dsimp only
  split
  · exact ready_of_structPres (processFuncs_struct env (shortcutCreate env s))
      (shortcutCreate_ready env s)
  · exact shortcutCreate_ready env s

theorem initLoop_one (env : Env) (fuel : Nat) (s : AState) :
    initLoopModel env (fuel + 1) 0 s = (1, (doInitModel env s).1) := rfl

/-- C5: the driver caps the points-to fixpoint via the Iteration guard.
doModulePass performs its instruction-processing sweep exactly on calls
with Iteration < 2 and otherwise returns false having run only the
type-shortcut creation; that creation is a no-op on every ready state
(shortcuts already created, or no candidate), every doModulePass call
leaves the state ready — so every later call with Iteration >= 2 returns
the state unchanged with no propagation — and the initialization phase,
whose doInitialization always reports no change, hands the fixpoint phase
the shared Iteration counter at value 1. -/
theorem spec_c5_iteration_cap :
    (∀ (env : Env) (iteration : Nat) (s : AState), iteration < 2 →
      doModulePassModel env iteration s =
        processFuncs env (shortcutCreate env s)) ∧
    (∀ (env : Env) (iteration : Nat) (s : AState), 2 ≤ iteration →
      doModulePassModel env iteration s = (shortcutCreate env s, false)) ∧
    (∀ (env : Env) (s : AState), shortcutsReady s →
      shortcutCreate env s = s) ∧
    (∀ (env : Env) (iteration : Nat) (s : AState),
      shortcutsReady (doModulePassModel env iteration s).1) ∧
    (∀ (env : Env) (iteration : Nat) (s : AState), 2 ≤ iteration →
      shortcutsReady s → doModulePassModel env iteration s = (s, false)) ∧
    (∀ (env : Env) (fuel : Nat) (s : AState),
      (initLoopModel env (fuel + 1) 0 s).1 = 1) := by
  have h1 : ∀ (env : Env) (iteration : Nat) (s : AState), iteration < 2 →
      doModulePassModel env iteration s =
        processFuncs env (shortcutCreate env s) := by
    intro env iteration s h
    unfold doModulePassModel
    dsimp only
    rw [if_pos h]
  have h2 : ∀ (env : Env) (iteration : Nat) (s : AState), 2 ≤ iteration →
      doModulePassModel env iteration s = (shortcutCreate env s, false) := by
    intro env iteration s h
    unfold doModulePassModel
    dsimp only
    rw [if_neg (by omega)]
  refine ⟨h1, h2, fun env s h => shortcutCreate_of_ready env s h,
    fun env iteration s => doModulePass_ready env iteration s,
    fun env iteration s hit hready => ?_,
    fun env fuel s => by rw [initLoop_one env fuel s]⟩
  rw [h2 env iteration s hit, shortcutCreate_of_ready env s hready]

theorem spec_c5_iteration_cap_witness :
    doModulePassModel env6 3 (emptyState nfNop) = (emptyState nfNop, false) ∧
    (initLoopModel env6 1 0 (emptyState nfNop)).1 = 1 :=
  ⟨spec_c5_iteration_cap.2.2.2.2.1 env6 3 (emptyState nfNop) (by omega)
      (Or.inr (fun p hp _ => absurd hp (List.not_mem_nil p))),
   spec_c5_iteration_cap.2.2.2.2.2 env6 0 (emptyState nfNop)⟩

theorem initArgStructs_pres (s : AState) (f : FuncData) :
    (initArgStructs s f).callers = s.callers ∧
    (initArgStructs s f).calleeByType = s.calleeByType ∧
    (initArgStructs s f).callees = s.callees ∧
    (initArgStructs s f).reachable = s.reachable := by
  unfold initArgStructs
  exact foldlPreserve (fun s5 q =>
      { s5 with argStructs := assocAdd s5.argStructs q.1 q.2 })
    (fun u => u.callers = s.callers ∧
      u.calleeByType = s.calleeByType ∧ u.callees = s.callees ∧
      u.reachable = s.reachable)
    (fun u a hu => hu) f.argStructPairs s ⟨rfl, rfl, rfl, rfl⟩

theorem initRetStructs_pres (s : AState) (f : FuncData) :
    (initRetStructs s f).callers = s.callers ∧
    (initRetStructs s f).calleeByType = s.calleeByType ∧
    (initRetStructs s f).callees = s.callees ∧
    (initRetStructs s f).reachable = s.reachable := by
  unfold initRetStructs
  cases f.retStructId with
  | none => exact ⟨rfl, rfl, rfl, rfl⟩
  | some st => exact ⟨rfl, rfl, rfl, rfl⟩

theorem initSeed_pres (s : AState) (f : FuncData) :
    (initSeed s f).callers = s.callers ∧
    (initSeed s f).calleeByType = s.calleeByType ∧
    (initSeed s f).callees = s.callees ∧
    s.reachable ⊆ (initSeed s f).reachable := by
  unfold initSeed
  split
  · exact ⟨rfl, rfl, rfl, Finset.subset_insert _ _⟩
  · exact ⟨rfl, rfl, rfl, Finset.Subset.refl _⟩

theorem initAddrTaken_pres (s : AState) (f : FuncData) :
    (initAddrTaken s f).callers = s.callers ∧
    (initAddrTaken s f).calleeByType = s.calleeByType ∧
    (initAddrTaken s f).callees = s.callees ∧
    (initAddrTaken s f).reachable = s.reachable := by
  unfold initAddrTaken
  split
  · exact ⟨rfl, rfl, rfl, rfl⟩
  · exact ⟨rfl, rfl, rfl, rfl⟩

theorem initCallers_pres (env : Env) (s : AState) (f : FuncData) :
    (initCallers env s f).calleeByType = s.calleeByType ∧
    (initCallers env s f).callees = s.callees ∧
    (initCallers env s f).reachable = s.reachable := ⟨rfl, rfl, rfl⟩

theorem initUsers_no_invoke (env : Env) (f : FuncData) (cs : Nat)
    (hinv : (env.csData cs).isInvoke = true) : cs ∉ initUsers env f := by
  unfold initUsers
  intro hmem
  rcases List.mem_filter.mp (List.mem_toFinset.mp hmem) with ⟨_, hpred⟩
  simp [hinv] at hpred

theorem initFunc_callers_notmem (env : Env) (t : AState) (fd : FuncData)
    (cs g : Nat) (hinv : (env.csData cs).isInvoke = true)
    (h : cs ∉ t.callers g) : cs ∉ (initFunc env t fd).callers g := by
  unfold initFunc
  rw [(initArgStructs_pres _ fd).1, (initRetStructs_pres _ fd).1,
    (initSeed_pres _ fd).1, (initAddrTaken_pres _ fd).1]
  unfold initCallers
  dsimp only
  split
  · intro hmem
    rcases Finset.mem_union.mp hmem with hmem | hmem
    · exact h hmem
    · exact initUsers_no_invoke env fd cs hinv hmem
  · exact h

theorem initFunc_cbt (env : Env) (t : AState) (fd : FuncData) :
    (initFunc env t fd).calleeByType = t.calleeByType := by
  unfold initFunc
  rw [(initArgStructs_pres _ fd).2.1, (initRetStructs_pres _ fd).2.1,
    (initSeed_pres _ fd).2.1, (initAddrTaken_pres _ fd).2.1,
    (initCallers_pres env t fd).1]

theorem doInit_globals_pres (env : Env) (s : AState) :
    (env.globalStructIds.foldl (fun s2 st =>
      { s2 with globalStructs := insert st s2.globalStructs }) s).callers =
        s.callers ∧
    (env.globalStructIds.foldl (fun s2 st =>
      { s2 with globalStructs := insert st s2.globalStructs }) s).calleeByType =
        s.calleeByType ∧
    (env.globalStructIds.foldl (fun s2 st =>
      { s2 with globalStructs := insert st s2.globalStructs }) s).callees =
        s.callees ∧
    (env.globalStructIds.foldl (fun s2 st =>
      { s2 with globalStructs := insert st s2.globalStructs }) s).reachable =
        s.reachable := by
  exact foldlPreserve (fun s2 st =>
      { s2 with globalStructs := insert st s2.globalStructs })
    (fun u => u.callers = s.callers ∧
      u.calleeByType = s.calleeByType ∧ u.callees = s.callees ∧
      u.reachable = s.reachable)
    (fun u a hu => hu) env.globalStructIds s ⟨rfl, rfl, rfl, rfl⟩

theorem doInit_callers_notmem (env : Env) (s : AState) (cs g : Nat)
    (hinv : (env.csData cs).isInvoke = true) (h : cs ∉ s.callers g) :
    cs ∉ (doInitModel env s).1.callers g := by
  unfold doInitModel
  dsimp only
  refine foldlPreserve (initFunc env) (fun u => cs ∉ u.callers g)
    (fun u fd hu => initFunc_callers_notmem env u fd cs g hinv hu)
    env.funcs _ ?_
  dsimp only
  rw [(doInit_globals_pres env s).1]
  exact h

theorem doInit_cbt (env : Env) (s : AState) :
    (doInitModel env s).1.calleeByType = s.calleeByType := by
  unfold doInitModel
  dsimp only
  refine foldlPreserve (initFunc env)
    (fun u => u.calleeByType = s.calleeByType)
    (fun u fd hu => (initFunc_cbt env u fd).trans hu) env.funcs _ ?_
  exact (doInit_globals_pres env s).2.1

theorem finalInst_callers_notmem (env : Env) (t : AState) (i : Inst)
    (cs g : Nat) (hinv : (env.csData cs).isInvoke = true)
    (h : cs ∉ t.callers g) : cs ∉ (finalInst env t i).callers g := by
  cases i with
  | callSite c =>
    show cs ∉ (finalInst env t (.callSite c)).callers g
    unfold finalInst
    dsimp only
    split
    · exact h
    split
    · exact h
    next hni _ =>
      dsimp only
      split
      · intro hmem
        rcases Finset.mem_insert.mp hmem with hmem | hmem
        · subst hmem
          rw [hinv] at hni
          exact hni rfl
        · exact h hmem
      · exact h
  | skipped => exact h
  | ret rv retN => exact h
  | alloca => exact h
  | load valN ptrN pointeeSt => exact h
  | store valIsPtr valN ptrN => exact h
  | gep valN ptrN srcSt off fieldNum => exact h
  | bitcast dstN srcN => exact h
  | phi dstN srcNs => exact h
  | sel dstN srcNs => exact h
  | unhandled => exact h

theorem finalInst_cbt_other (env : Env) (t : AState) (i : Inst) (cs : Nat)
    (hinv : (env.csData cs).isInvoke = true) :
    (finalInst env t i).calleeByType cs = t.calleeByType cs := by
  cases i with
  | callSite c =>
    show (finalInst env t (.callSite c)).calleeByType cs = t.calleeByType cs
    unfold finalInst
    dsimp only
    split
    · rfl
    split
    · rfl
    next hni _ =>
      dsimp only
      have hne : cs ≠ c := by
        intro he
        subst he
        rw [hinv] at hni
        exact hni rfl
      rw [if_neg hne]
  | skipped => rfl
  | ret rv retN => rfl
  | alloca => rfl
  | load valN ptrN pointeeSt => rfl
  | store valIsPtr valN ptrN => rfl
  | gep valN ptrN srcSt off fieldNum => rfl
  | bitcast dstN srcN => rfl
  | phi dstN srcNs => rfl
  | sel dstN srcNs => rfl
  | unhandled => rfl

theorem doFinal_callers_notmem (env : Env) (s : AState) (cs g : Nat)
    (hinv : (env.csData cs).isInvoke = true) (h : cs ∉ s.callers g) :
    cs ∉ (doFinalModel env s).1.callers g := by
  unfold doFinalModel
  dsimp only
  refine foldlPreserve (fun s1 f => f.body.foldl (finalInst env) s1)
    (fun u => cs ∉ u.callers g) (fun u fd hu => ?_) env.funcs s h
  exact foldlPreserve (finalInst env) (fun v => cs ∉ v.callers g)
    (fun v i hv => finalInst_callers_notmem env v i cs g hinv hv) fd.body u hu

theorem doFinal_cbt_other (env : Env) (s : AState) (cs : Nat)
    (hinv : (env.csData cs).isInvoke = true) :
    (doFinalModel env s).1.calleeByType cs = s.calleeByType cs := by
  unfold doFinalModel
  dsimp only
  refine foldlPreserve (fun s1 f => f.body.foldl (finalInst env) s1)
    (fun u => u.calleeByType cs = s.calleeByType cs) (fun u fd hu => ?_)
    env.funcs s rfl
  refine foldlPreserve (finalInst env)
    (fun v => v.calleeByType cs = s.calleeByType cs)
    (fun v i hv => (finalInst_cbt_other env v i cs hinv).trans hv) fd.body u hu

/-- C10: call sites created from Invoke instructions are invisible to both
bookkeeping sweeps.  doInitialization's user scan and doFinalization's
instruction scan both consider only CallInst instructions (the dyn_cast
fails on an Invoke), so neither sweep ever adds an invoke site to any
Callers entry, and the finalization-computed calleeByType entry of an
invoke site is exactly what it was before the sweep. -/
theorem spec_c10_invoke_sites_excluded (env : Env) (s : AState) (cs : Nat)
    (hinv : (env.csData cs).isInvoke = true) :
    (∀ g, cs ∉ s.callers g → cs ∉ (doInitModel env s).1.callers g) ∧
    ((doInitModel env s).1.calleeByType = s.calleeByType) ∧
    (∀ g, cs ∉ s.callers g → cs ∉ (doFinalModel env s).1.callers g) ∧
    ((doFinalModel env s).1.calleeByType cs = s.calleeByType cs) :=
  ⟨fun g h => doInit_callers_notmem env s cs g hinv h,
   doInit_cbt env s,
   fun g h => doFinal_callers_notmem env s cs g hinv h,
   doFinal_cbt_other env s cs hinv⟩

theorem spec_c10_invoke_sites_excluded_witness :
    (env6.csData 99).isInvoke = true ∧
    (99 : Nat) ∉ (doInitModel env6 (emptyState nfNop)).1.callers 0 ∧
    (doFinalModel env6 (emptyState nfNop)).1.calleeByType 99 =
      (emptyState nfNop).calleeByType 99 :=
  ⟨rfl,
   (spec_c10_invoke_sites_excluded env6 (emptyState nfNop) 99 rfl).1 0
     (by decide),
   (spec_c10_invoke_sites_excluded env6 (emptyState nfNop) 99 rfl).2.2.2⟩

theorem loadStep_cbt (valN : Nat) (ps : Finset Nat) (p : AState × Bool × Bool)
    (idx : Nat) : (loadStep valN ps p idx).1.calleeByType = p.1.calleeByType := by
  unfold loadStep
  split
  · rfl
  split
  · rfl
  · split
    · rfl
    · rfl

theorem storeStep_cbt (vs : Finset Nat) (p : AState × Bool) (idx : Nat) :
    (storeStep vs p idx).1.calleeByType = p.1.calleeByType := by
  unfold storeStep
  split
  · rfl
  · rfl

theorem gepStep_cbt (env : Env) (valN : Nat) (srcSt : Option Nat)
    (negOff : Bool) (fieldNum : Nat) (p : AState × Bool × Bool) (idx : Nat) :
    (gepStep env valN srcSt negOff fieldNum p idx).1.calleeByType =
      p.1.calleeByType := by
  unfold gepStep
  dsimp only
  split
  · rfl
  split
  · rfl
  · split
    · rfl
    · have hre : (gepResize env srcSt p.1 idx
          (p.1.nf.objSize idx)).calleeByType = p.1.calleeByType := by
        unfold gepResize
        split
        · rfl
        · rfl
      split
      · exact hre
      · exact hre

theorem loadShortcut_cbt (s : AState) (valN : Nat) (pointeeSt : Option Nat) :
    (loadShortcut s valN pointeeSt).1.calleeByType = s.calleeByType := by
  cases pointeeSt with
  | none => rfl
  | some st =>
    show (loadShortcut s valN (some st)).1.calleeByType = s.calleeByType
    unfold loadShortcut
    dsimp only
    cases (s.typeShortcuts.filter (fun q => q.1 = st)).head? with
    | none => rfl
    | some q => rfl

theorem loadModel_cbt (s : AState) (valN ptrN : Nat) (pointeeSt : Option Nat) :
    (loadModel s valN ptrN pointeeSt).1.calleeByType = s.calleeByType := by
  unfold loadModel
  dsimp only
  split
  · rfl
  split
  · exact loadShortcut_cbt s valN pointeeSt
  next ps _ =>
    refine ((foldlPreserve (loadStep valN ps)
      (fun p => p.1.calleeByType = s.calleeByType) ?_ (ascElems ps) _
      (loadShortcut_cbt s valN pointeeSt)))
    intro p a hp
    exact (loadStep_cbt valN ps p a).trans hp

theorem addReachable_cbt (s : AState) (f : Nat) :
    (addReachable s f).calleeByType = s.calleeByType := by
  unfold addReachable
  split
  · rfl
  · rfl

theorem indirectStep_cbt (env : Env) (cs : Nat) (cd : CallData)
    (p : AState × Bool) (idx : Nat) :
    (indirectStep env cs cd p idx).1.calleeByType = p.1.calleeByType := by
  unfold indirectStep
  dsimp only
  split
  · rfl
  split
  · rfl
  next f _ =>
    exact ((handleCall_core (calleesAdd (addReachable p.1 f) cs f) cd
      (env.funcData f)).2.2.2.2.1).trans (addReachable_cbt p.1 f)

theorem callModel_cbt_direct (env : Env) (s : AState) (c cs k : Nat)
    (hd : (env.csData cs).calledFunction = some k) :
    (callModel env s c).1.calleeByType cs = s.calleeByType cs := by
  unfold callModel
  dsimp only
  split
  · rfl
  split
  next cf _ =>
    exact congrFun (((handleCall_core
      (calleesAdd (addReachable s (env.funcDef cf)) c (env.funcDef cf))
      (env.csData c) (env.funcData (env.funcDef cf))).2.2.2.2.1).trans
      (addReachable_cbt s (env.funcDef cf))) cs
  next hnone =>
    split
    next rs _ =>
      have hfold : ((ascElems rs).foldl
          (indirectStep env c (env.csData c)) (s, false)).1.calleeByType =
            s.calleeByType :=
        foldlPreserve (indirectStep env c (env.csData c))
          (fun p => p.1.calleeByType = s.calleeByType)
          (fun p a hp => (indirectStep_cbt env c (env.csData c) p a).trans hp)
          (ascElems rs) (s, false) rfl
      split
      · exact congrFun hfold cs
      · exact congrFun hfold cs
    next _ =>
      have hne : ¬ cs = c := by
        intro he
        rw [he, hnone] at hd
        exact Option.noConfusion hd
      split
      · exact if_neg hne
      · exact if_neg hne

theorem applyInst_cbt_direct (env : Env) (s : AState) (i : Inst) (cs k : Nat)
    (hd : (env.csData cs).calledFunction = some k) :
    (applyInst env s i).1.calleeByType cs = s.calleeByType cs := by
  cases i with
  | skipped => rfl
  | alloca => rfl
  | unhandled => rfl
  | ret rv retN =>
    cases rv with
    | none => rfl
    | some rvN =>
      show (applyInst env s (.ret (some rvN) retN)).1.calleeByType cs =
        s.calleeByType cs
      unfold applyInst
      dsimp only
      split
      · rfl
      · split
        · rfl
        next rs _ => rfl
  | callSite c => exact callModel_cbt_direct env s c cs k hd
  | load valN ptrN pointeeSt => exact congrFun (loadModel_cbt s valN ptrN pointeeSt) cs
  | store valIsPtr valN ptrN =>
    show (applyInst env s (.store valIsPtr valN ptrN)).1.calleeByType cs =
      s.calleeByType cs
    unfold applyInst
    dsimp only
    split
    · rfl
    · split
      · rfl
      next vs _ =>
        split
        · rfl
        next ps _ =>
          refine congrFun (foldlPreserve (storeStep vs)
            (fun p => p.1.calleeByType = s.calleeByType) ?_ (ascElems ps)
            (s, false) rfl) cs
          intro p a hp
          exact (storeStep_cbt vs p a).trans hp
  | gep valN ptrN srcSt off fieldNum =>
    show (applyInst env s (.gep valN ptrN srcSt off fieldNum)).1.calleeByType cs =
      s.calleeByType cs
    unfold applyInst
    dsimp only
    split
    · rfl
    next ps _ =>
      refine congrFun (foldlPreserve
        (gepStep env valN srcSt (decide (off < 0)) fieldNum)
        (fun p => p.1.calleeByType = s.calleeByType) ?_ (ascElems ps)
        (s, false, false) rfl) cs
      intro p a hp
      exact (gepStep_cbt env valN srcSt (decide (off < 0)) fieldNum p a).trans hp
  | bitcast dstN srcN =>
    show (applyInst env s (.bitcast dstN srcN)).1.calleeByType cs =
      s.calleeByType cs
    unfold applyInst
    dsimp only
    split
    · rfl
    next rs _ => rfl
  | phi dstN srcNs =>
    show (applyInst env s (.phi dstN srcNs)).1.calleeByType cs =
      s.calleeByType cs
    unfold applyInst
    dsimp only
    refine congrFun (foldlPreserve _
      (fun (p : AState × Bool) => p.1.calleeByType = s.calleeByType) ?_ srcNs
      (s, false) rfl) cs
    intro p a hp
    dsimp only
    split
    · exact hp
    next rs _ => exact hp
  | sel dstN srcNs =>
    show (applyInst env s (.sel dstN srcNs)).1.calleeByType cs =
      s.calleeByType cs
    unfold applyInst
    dsimp only
    refine congrFun (foldlPreserve _
      (fun (p : AState × Bool) => p.1.calleeByType = s.calleeByType) ?_ srcNs
      (s, false) rfl) cs
    intro p a hp
    dsimp only
    split
    · exact hp
    next rs _ => exact hp

theorem finalInst_cbt_some_pres (env : Env) (t : AState) (i : Inst) (cs : Nat)
    (h : (t.calleeByType cs).isSome = true) :
    ((finalInst env t i).calleeByType cs).isSome = true := by
  cases i with
  | callSite c =>
    show ((finalInst env t (.callSite c)).calleeByType cs).isSome = true
    unfold finalInst
    dsimp only
    split
    · exact h
    split
    · exact h
    · dsimp only
      split
      · rfl
      · exact h
  | skipped => exact h
  | ret rv retN => exact h
  | alloca => exact h
  | load valN ptrN pointeeSt => exact h
  | store valIsPtr valN ptrN => exact h
  | gep valN ptrN srcSt off fieldNum => exact h
  | bitcast dstN srcN => exact h
  | phi dstN srcNs => exact h
  | sel dstN srcNs => exact h
  | unhandled => exact h

theorem finalInst_cbt_establish (env : Env) (t : AState) (cs : Nat)
    (hni : (env.csData cs).isInvoke = false)
    (hna : (env.csData cs).inlineAsm = false) :
    ((finalInst env t (.callSite cs)).calleeByType cs).isSome = true := by
  unfold finalInst
  dsimp only
  rw [if_neg (by simp [hni]), if_neg (by simp [hna])]
  dsimp only
  rw [if_pos rfl]
  rfl

theorem doFinal_cbt_some (env : Env) (s : AState) (fd : FuncData) (cs : Nat)
    (hfd : fd ∈ env.funcs) (hcs : Inst.callSite cs ∈ fd.body)
    (hni : (env.csData cs).isInvoke = false)
    (hna : (env.csData cs).inlineAsm = false) :
    ((doFinalModel env s).1.calleeByType cs).isSome = true := by
  unfold doFinalModel
  dsimp only
  refine foldlReach (fun s1 f => f.body.foldl (finalInst env) s1)
    (fun u => (u.calleeByType cs).isSome = true) fd ?_ ?_ env.funcs s hfd
  · intro u f hu
    exact foldlPreserve (finalInst env)
      (fun v => (v.calleeByType cs).isSome = true)
      (fun v i hv => finalInst_cbt_some_pres env v i cs hv) f.body u hu
  · intro u
    exact foldlReach (finalInst env)
      (fun v => (v.calleeByType cs).isSome = true) (.callSite cs)
      (fun v i hv => finalInst_cbt_some_pres env v i cs hv)
      (fun v => finalInst_cbt_establish env v cs hni hna) fd.body u hcs

/-- C2 counterexample: in the program env2 the call site 1 is a direct
CallInst (its called function is function 2), yet after the entire run —
initialization, fixpoint and finalization — it is a key of the
calleeByType map, because doFinalization computes a type-based entry for
every non-inline-asm CallInst, direct ones included. -/
theorem spec_c2_direct_calleeByType_counterexample :
    (env2.csData 1).calledFunction = some 2 ∧
    ((runModel env2 1 3 1 (emptyState nfNop)).calleeByType 1).isSome = true :=
  ⟨rfl, by decide⟩

/-- C2 amended: direct call sites never enter calleeByType during
initialization or the instruction-processing fixpoint — runOnFunction
writes calleeByType only at indirect sites whose callee node is absent —
but doFinalization inserts a calleeByType key for every non-invoke,
non-inline-asm call site occurring in a module function, including every
direct one, so after the entire run a scanned direct CallInst is a key of
CalleeByType. -/
theorem spec_c2_direct_calleeByType_amended :
    (∀ (env : Env) (s : AState) (i : Inst) (cs k : Nat),
      (env.csData cs).calledFunction = some k →
      (applyInst env s i).1.calleeByType cs = s.calleeByType cs) ∧
    (∀ (env : Env) (s : AState),
      (doInitModel env s).1.calleeByType = s.calleeByType) ∧
    (∀ (env : Env) (s : AState) (fd : FuncData) (cs : Nat), fd ∈ env.funcs →
      Inst.callSite cs ∈ fd.body → (env.csData cs).isInvoke = false →
      (env.csData cs).inlineAsm = false →
      ((doFinalModel env s).1.calleeByType cs).isSome = true) :=
  ⟨fun env s i cs k hd => applyInst_cbt_direct env s i cs k hd,
   fun env s => doInit_cbt env s,
   fun env s fd cs hfd hcs hni hna => doFinal_cbt_some env s fd cs hfd hcs hni hna⟩

theorem spec_c2_direct_calleeByType_amended_witness :
    (applyInst env2 (emptyState nfNop) (.callSite 1)).1.calleeByType 1 =
      (emptyState nfNop).calleeByType 1 ∧
    ((doFinalModel env2 (emptyState nfNop)).1.calleeByType 1).isSome = true :=
  ⟨spec_c2_direct_calleeByType_amended.1 env2 (emptyState nfNop)
      (.callSite 1) 1 2 rfl,
   spec_c2_direct_calleeByType_amended.2.2 env2 (emptyState nfNop) mainF2 1
      (List.mem_cons_self mainF2 [calleeF2]) (List.mem_singleton.mpr rfl)
      rfl rfl⟩

theorem addReachable_reach_sub (s : AState) (f : Nat) :
    s.reachable ⊆ (addReachable s f).reachable := by
  unfold addReachable
  split
  · exact Finset.Subset.refl _
  · exact Finset.subset_insert _ _

theorem addReachable_self (s : AState) (f : Nat) :
    f ∈ (addReachable s f).reachable := by
  unfold addReachable
  split
  next h => exact h
  · exact Finset.mem_insert_self _ _

theorem corePres_reach {a b : AState} (h : CorePres a b) :
    a.reachable ⊆ b.reachable := by
  rw [h.1]

theorem indirectStep_reach_sub (env : Env) (cs : Nat) (cd : CallData)
    (p : AState × Bool) (idx : Nat) :
    p.1.reachable ⊆ (indirectStep env cs cd p idx).1.reachable := by
  unfold indirectStep
  dsimp only
  split
  · exact Finset.Subset.refl _
  split
  · exact Finset.Subset.refl _
  next f _ =>
    refine Finset.Subset.trans (addReachable_reach_sub p.1 f) ?_
    have h := corePres_reach (handleCall_core
      (calleesAdd (addReachable p.1 f) cs f) cd (env.funcData f))
    exact h

theorem callModel_reach_sub (env : Env) (s : AState) (cs : Nat) :
    s.reachable ⊆ (callModel env s cs).1.reachable := by
  unfold callModel
  dsimp only
  split
  · exact Finset.Subset.refl _
  split
  next cf _ =>
    refine Finset.Subset.trans (addReachable_reach_sub s (env.funcDef cf)) ?_
    have h := corePres_reach (handleCall_core
      (calleesAdd (addReachable s (env.funcDef cf)) cs (env.funcDef cf))
      (env.csData cs) (env.funcData (env.funcDef cf)))
    exact h
  next _ =>
    split
    next rs _ =>
      have hfold : s.reachable ⊆ ((ascElems rs).foldl
          (indirectStep env cs (env.csData cs)) (s, false)).1.reachable :=
        foldlPreserve (indirectStep env cs (env.csData cs))
          (fun p => s.reachable ⊆ p.1.reachable)
          (fun p a hp => Finset.Subset.trans hp
            (indirectStep_reach_sub env cs (env.csData cs) p a))
          (ascElems rs) (s, false) (Finset.Subset.refl _)
      split
      · exact hfold
      · exact hfold
    next _ =>
      split
      · exact Finset.Subset.refl _
      · exact Finset.Subset.refl _

theorem loadModel_reach_sub (s : AState) (valN ptrN : Nat)
    (pointeeSt : Option Nat) :
    s.reachable ⊆ (loadModel s valN ptrN pointeeSt).1.reachable := by
  unfold loadModel
  dsimp only
  split
  · exact Finset.Subset.refl _
  have hsc : s.reachable ⊆ (loadShortcut s valN pointeeSt).1.reachable := by
    cases pointeeSt with
    | none => exact Finset.Subset.refl _
    | some st =>
      show s.reachable ⊆ (loadShortcut s valN (some st)).1.reachable
      unfold loadShortcut
      dsimp only
      cases (s.typeShortcuts.filter (fun q => q.1 = st)).head? with
      | none => exact Finset.Subset.refl _
      | some q => exact Finset.Subset.refl _
  split
  · exact hsc
  next ps _ =>
    refine Finset.Subset.trans hsc
      (foldlPreserve (loadStep valN ps)
        (fun p => (loadShortcut s valN pointeeSt).1.reachable ⊆ p.1.reachable)
        ?_ (ascElems ps) _ (Finset.Subset.refl _))
    intro p a hp
    refine Finset.Subset.trans hp ?_
    unfold loadStep
    split
    · exact Finset.Subset.refl _
    split
    · exact Finset.Subset.refl _
    · split
      · exact Finset.Subset.refl _
      · exact Finset.Subset.refl _

theorem applyInst_reach_sub (env : Env) (s : AState) (i : Inst) :
    s.reachable ⊆ (applyInst env s i).1.reachable := by
  cases i with
  | skipped => exact Finset.Subset.refl _
  | alloca => exact Finset.Subset.refl _
  | unhandled => exact Finset.Subset.refl _
  | ret rv retN =>
    cases rv with
    | none => exact Finset.Subset.refl _
    | some rvN =>
      show s.reachable ⊆ (applyInst env s (.ret (some rvN) retN)).1.reachable
      unfold applyInst
      dsimp only
      split
      · exact Finset.Subset.refl _
      · split
        · exact Finset.Subset.refl _
        next rs _ => exact Finset.Subset.refl _
  | callSite cs => exact callModel_reach_sub env s cs
  | load valN ptrN pointeeSt => exact loadModel_reach_sub s valN ptrN pointeeSt
  | store valIsPtr valN ptrN =>
    show s.reachable ⊆ (applyInst env s (.store valIsPtr valN ptrN)).1.reachable
    unfold applyInst
    dsimp only
    split
    · exact Finset.Subset.refl _
    · split
      · exact Finset.Subset.refl _
      next vs _ =>
        split
        · exact Finset.Subset.refl _
        next ps _ =>
          refine foldlPreserve (storeStep vs)
            (fun p => s.reachable ⊆ p.1.reachable) ?_ (ascElems ps) (s, false)
            (Finset.Subset.refl _)
          intro p a hp
          refine Finset.Subset.trans hp ?_
          unfold storeStep
          split
          · exact Finset.Subset.refl _
          · exact Finset.Subset.refl _
  | gep valN ptrN srcSt off fieldNum =>
    show s.reachable ⊆
      (applyInst env s (.gep valN ptrN srcSt off fieldNum)).1.reachable
    unfold applyInst
    dsimp only
    split
    · exact Finset.Subset.refl _
    next ps _ =>
      refine foldlPreserve (gepStep env valN srcSt (decide (off < 0)) fieldNum)
        (fun p => s.reachable ⊆ p.1.reachable) ?_ (ascElems ps)
        (s, false, false) (Finset.Subset.refl _)
      intro p a hp
      refine Finset.Subset.trans hp ?_
      unfold gepStep
      dsimp only
      split
      · exact Finset.Subset.refl _
      split
      · exact Finset.Subset.refl _
      · split
        · exact Finset.Subset.refl _
        · have hre : p.1.reachable ⊆ (gepResize env srcSt p.1 a
              (p.1.nf.objSize a)).reachable := by
            unfold gepResize
            split
            · exact Finset.Subset.refl _
            · exact Finset.Subset.refl _
          split
          · exact hre
          · exact hre
  | bitcast dstN srcN =>
    show s.reachable ⊆ (applyInst env s (.bitcast dstN srcN)).1.reachable
    unfold applyInst
    dsimp only
    split
    · exact Finset.Subset.refl _
    next rs _ => exact Finset.Subset.refl _
  | phi dstN srcNs =>
    show s.reachable ⊆ (applyInst env s (.phi dstN srcNs)).1.reachable
    unfold applyInst
    dsimp only
    refine foldlPreserve _
      (fun (p : AState × Bool) => s.reachable ⊆ p.1.reachable) ?_ srcNs
      (s, false) (Finset.Subset.refl _)
    intro p a hp
    dsimp only
    split
    · exact hp
    next rs _ => exact hp
  | sel dstN srcNs =>
    show s.reachable ⊆ (applyInst env s (.sel dstN srcNs)).1.reachable
    unfold applyInst
    dsimp only
    refine foldlPreserve _
      (fun (p : AState × Bool) => s.reachable ⊆ p.1.reachable) ?_ srcNs
      (s, false) (Finset.Subset.refl _)
    intro p a hp
    dsimp only
    split
    · exact hp
    next rs _ => exact hp

theorem runOnFunction_reach_sub (env : Env) (s : AState) (f : FuncData) :
    s.reachable ⊆ (runOnFunctionModel env s f).1.reachable := by
  unfold runOnFunctionModel
  refine foldlPreserve _
    (fun (p : AState × Bool) => s.reachable ⊆ p.1.reachable) ?_ f.body
    ({ s with unvisited := s.unvisited.erase f.fid }, false)
    (Finset.Subset.refl _)
  intro p i hp
  exact Finset.Subset.trans hp (applyInst_reach_sub env p.1 i)

theorem processFuncs_reach_sub (env : Env) (s : AState) :
    s.reachable ⊆ (processFuncs env s).1.reachable := by
  unfold processFuncs
  refine foldlPreserve _
    (fun (p : AState × Bool) => s.reachable ⊆ p.1.reachable) ?_ env.funcs
    (s, false) (Finset.Subset.refl _)
  intro p f hp
  dsimp only
  split
  · exact hp
  · exact Finset.Subset.trans hp (runOnFunction_reach_sub env p.1 f)

theorem shortcutEntry_rc (env : Env) (t : AState) (p : Nat × List Nat) :
    (shortcutEntry env t p).reachable = t.reachable ∧
    (shortcutEntry env t p).callees = t.callees := by
  unfold shortcutEntry
  cases hf : assocFind t.argStructs p.1 with
  | none => exact ⟨rfl, rfl⟩
  | some argNs =>
    dsimp only
    by_cases hm : p.1 ∈ t.globalStructs
    · rw [if_pos hm]
      exact ⟨rfl, rfl⟩
    · rw [if_neg hm]
      exact foldlPreserve
        (fun s2 node =>
          let s3 := (gUpsertCh s2 node {t.nf.nextIdx}).1
          { s3 with typeShortcutsObj := insert node s3.typeShortcutsObj })
        (fun u => u.reachable = t.reachable ∧ u.callees = t.callees)
        (fun u a hu => hu) (p.2 ++ argNs)
        { t with nf := allocGroup t.nf (env.stSize p.1),
                 typeShortcuts := t.typeShortcuts ++ [(p.1, t.nf.nextIdx)] }
        ⟨rfl, rfl⟩

theorem shortcutCreate_rc (env : Env) (s : AState) :
    (shortcutCreate env s).reachable = s.reachable ∧
    (shortcutCreate env s).callees = s.callees := by
  unfold shortcutCreate
  split
  · refine foldlPreserve (shortcutEntry env)
      (fun u => u.reachable = s.reachable ∧ u.callees = s.callees) ?_
      s.retStructs s ⟨rfl, rfl⟩
    intro u p hu
    obtain ⟨h1, h2⟩ := shortcutEntry_rc env u p
    exact ⟨h1.trans hu.1, h2.trans hu.2⟩
  · exact ⟨rfl, rfl⟩

theorem doModulePass_reach_sub (env : Env) (iteration : Nat) (s : AState) :
    s.reachable ⊆ (doModulePassModel env iteration s).1.reachable := by
  unfold doModulePassModel
  dsimp only
  have hsc := (shortcutCreate_rc env s).1
  split
  · rw [← hsc]
    exact processFuncs_reach_sub env (shortcutCreate env s)
  · rw [hsc]

theorem fixLoop_reach_sub (env : Env) :
    ∀ (fuel iteration : Nat) (s : AState),
      s.reachable ⊆ (fixLoopModel env fuel iteration s).2.reachable
  | 0, _, _ => Finset.Subset.refl _
  | fuel + 1, iteration, s => by
    unfold fixLoopModel
    dsimp only
    split
    · exact Finset.Subset.trans (doModulePass_reach_sub env iteration s)
        (fixLoop_reach_sub env fuel (iteration + 1)
          (doModulePassModel env iteration s).1)
    · exact doModulePass_reach_sub env iteration s

theorem finalInst_rc (env : Env) (t : AState) (i : Inst) :
    (finalInst env t i).reachable = t.reachable ∧
    ∀ c, ((finalInst env t i).callees c).getD ∅ = (t.callees c).getD ∅ := by
  cases i with
  | callSite cs =>
    show (finalInst env t (.callSite cs)).reachable = t.reachable ∧ _
    unfold finalInst
    dsimp only
    split
    · exact ⟨rfl, fun c => rfl⟩
    split
    · exact ⟨rfl, fun c => rfl⟩
    · refine ⟨rfl, fun c => ?_⟩
      dsimp only
      by_cases hc : c = cs
      · rw [if_pos hc, hc]
        rfl
      · rw [if_neg hc]
  | skipped => exact ⟨rfl, fun c => rfl⟩
  | ret rv retN => exact ⟨rfl, fun c => rfl⟩
  | alloca => exact ⟨rfl, fun c => rfl⟩
  | load a b st => exact ⟨rfl, fun c => rfl⟩
  | store a b d => exact ⟨rfl, fun c => rfl⟩
  | gep a b st o fn => exact ⟨rfl, fun c => rfl⟩
  | bitcast a b => exact ⟨rfl, fun c => rfl⟩
  | phi a b => exact ⟨rfl, fun c => rfl⟩
  | sel a b => exact ⟨rfl, fun c => rfl⟩
  | unhandled => exact ⟨rfl, fun c => rfl⟩

theorem doFinal_rc (env : Env) (s : AState) :
    (doFinalModel env s).1.reachable = s.reachable ∧
    ∀ c, ((doFinalModel env s).1.callees c).getD ∅ = (s.callees c).getD ∅ := by
  unfold doFinalModel
  dsimp only
  refine foldlPreserve (fun s1 f => f.body.foldl (finalInst env) s1)
    (fun u => u.reachable = s.reachable ∧
      ∀ c, (u.callees c).getD ∅ = (s.callees c).getD ∅) ?_ env.funcs s
    ⟨rfl, fun c => rfl⟩
  intro u f hu
  refine foldlPreserve (finalInst env)
    (fun v => v.reachable = s.reachable ∧
      ∀ c, (v.callees c).getD ∅ = (s.callees c).getD ∅) ?_ f.body u hu
  intro v i hv
  obtain ⟨h1, h2⟩ := finalInst_rc env v i
  exact ⟨h1.trans hv.1, fun c => (h2 c).trans (hv.2 c)⟩

theorem finalLoop_rc (env : Env) :
    ∀ (fuel : Nat) (s : AState),
      (finalLoopModel env fuel s).reachable = s.reachable ∧
      ∀ c, ((finalLoopModel env fuel s).callees c).getD ∅ =
        (s.callees c).getD ∅
  | 0, s => ⟨rfl, fun c => rfl⟩
  | fuel + 1, s => by
    unfold finalLoopModel
    dsimp only
    obtain ⟨h1, h2⟩ := doFinal_rc env s
    split
    · obtain ⟨g1, g2⟩ := finalLoop_rc env fuel (doFinalModel env s).1
      exact ⟨g1.trans h1, fun c => (g2 c).trans (h2 c)⟩
    · exact ⟨h1, h2⟩

theorem q_transport {a b : AState} (hr : a.reachable ⊆ b.reachable)
    (hc : ∀ c, (b.callees c).getD ∅ = (a.callees c).getD ∅)
    (hQ : CalleesInReach a) : CalleesInReach b := by
  intro g cs hg
  rw [hc cs] at hg
  exact hr (hQ g cs hg)

theorem q_of_core {a b : AState} (h : CorePres a b)
    (hQ : CalleesInReach a) : CalleesInReach b := by
  intro g cs hg
  rw [h.2.2.1] at hg
  rw [h.1]
  exact hQ g cs hg

theorem addReachable_q (s : AState) (f : Nat) (hQ : CalleesInReach s) :
    CalleesInReach (addReachable s f) := by
  unfold addReachable
  split
  · exact hQ
  · intro g cs hg
    exact Finset.mem_insert_of_mem (hQ g cs hg)

theorem calleesAdd_q (s : AState) (cs f : Nat) (hQ : CalleesInReach s)
    (hf : f ∈ s.reachable) : CalleesInReach (calleesAdd s cs f) := by
  intro g c hg
  show g ∈ s.reachable
  unfold calleesAdd at hg
  dsimp only at hg
  split at hg
  · rcases Finset.mem_insert.mp hg with h | h
    · exact h ▸ hf
    · exact hQ g cs h
  · exact hQ g c hg

theorem indirectStep_q (env : Env) (cs : Nat) (cd : CallData)
    (p : AState × Bool) (idx : Nat) (hQ : CalleesInReach p.1) :
    CalleesInReach (indirectStep env cs cd p idx).1 := by
  unfold indirectStep
  dsimp only
  split
  · exact hQ
  split
  · exact hQ
  next f _ =>
    have hq2 : CalleesInReach (calleesAdd (addReachable p.1 f) cs f) :=
      calleesAdd_q (addReachable p.1 f) cs f (addReachable_q p.1 f hQ)
        (addReachable_self p.1 f)
    exact q_of_core (handleCall_core (calleesAdd (addReachable p.1 f) cs f)
      cd (env.funcData f)) hq2

theorem callModel_q (env : Env) (s : AState) (cs : Nat)
    (hQ : CalleesInReach s) : CalleesInReach (callModel env s cs).1 := by
  unfold callModel
  dsimp only
  split
  · exact hQ
  split
  next cf _ =>
    have hq2 : CalleesInReach
        (calleesAdd (addReachable s (env.funcDef cf)) cs (env.funcDef cf)) :=
      calleesAdd_q (addReachable s (env.funcDef cf)) cs (env.funcDef cf)
        (addReachable_q s (env.funcDef cf) hQ)
        (addReachable_self s (env.funcDef cf))
    exact q_of_core (handleCall_core
      (calleesAdd (addReachable s (env.funcDef cf)) cs (env.funcDef cf))
      (env.csData cs) (env.funcData (env.funcDef cf))) hq2
  next _ =>
    split
    next rs _ =>
      have hfold : CalleesInReach ((ascElems rs).foldl
          (indirectStep env cs (env.csData cs)) (s, false)).1 :=
        foldlPreserve (indirectStep env cs (env.csData cs))
          (fun p => CalleesInReach p.1)
          (fun p a hp => indirectStep_q env cs (env.csData cs) p a hp)
          (ascElems rs) (s, false) hQ
      split
      · exact hfold
      · exact hfold
    next _ =>
      split
      · exact hQ
      · exact hQ

theorem loadModel_q (s : AState) (valN ptrN : Nat) (pointeeSt : Option Nat)
    (hQ : CalleesInReach s) :
    CalleesInReach (loadModel s valN ptrN pointeeSt).1 := by
  unfold loadModel
  dsimp only
  split
  · exact hQ
  have hsc : CalleesInReach (loadShortcut s valN pointeeSt).1 := by
    cases pointeeSt with
    | none => exact hQ
    | some st =>
      show CalleesInReach (loadShortcut s valN (some st)).1
      unfold loadShortcut
      dsimp only
      cases (s.typeShortcuts.filter (fun q => q.1 = st)).head? with
      | none => exact hQ
      | some q => exact hQ
  split
  · exact hsc
  next ps _ =>
    refine foldlPreserve (loadStep valN ps)
      (fun p => CalleesInReach p.1) ?_ (ascElems ps) _ hsc
    intro p a hp
    unfold loadStep
    split
    · exact hp
    split
    · exact hp
    · split
      · exact hp
      · exact hp

theorem applyInst_q (env : Env) (s : AState) (i : Inst)
    (hQ : CalleesInReach s) : CalleesInReach (applyInst env s i).1 := by
  cases i with
  | skipped => exact hQ
  | alloca => exact hQ
  | unhandled => exact hQ
  | ret rv retN =>
    cases rv with
    | none => exact hQ
    | some rvN =>
      show CalleesInReach (applyInst env s (.ret (some rvN) retN)).1
      unfold applyInst
      dsimp only
      split
      · exact hQ
      · split
        · exact hQ
        next rs _ => exact hQ
  | callSite cs => exact callModel_q env s cs hQ
  | load valN ptrN pointeeSt => exact loadModel_q s valN ptrN pointeeSt hQ
  | store valIsPtr valN ptrN =>
    show CalleesInReach (applyInst env s (.store valIsPtr valN ptrN)).1
    unfold applyInst
    dsimp only
    split
    · exact hQ
    · split
      · exact hQ
      next vs _ =>
        split
        · exact hQ
        next ps _ =>
          refine foldlPreserve (storeStep vs)
            (fun p => CalleesInReach p.1) ?_ (ascElems ps) (s, false) hQ
          intro p a hp
          unfold storeStep
          split
          · exact hp
          · exact hp
  | gep valN ptrN srcSt off fieldNum =>
    show CalleesInReach (applyInst env s (.gep valN ptrN srcSt off fieldNum)).1
    unfold applyInst
    dsimp only
    split
    · exact hQ
    next ps _ =>
      refine foldlPreserve (gepStep env valN srcSt (decide (off < 0)) fieldNum)
        (fun p => CalleesInReach p.1) ?_ (ascElems ps) (s, false, false) hQ
      intro p a hp
      unfold gepStep
      dsimp only
      split
      · exact hp
      split
      · exact hp
      · split
        · exact hp
        · have hre : CalleesInReach (gepResize env srcSt p.1 a
              (p.1.nf.objSize a)) := by
            unfold gepResize
            split
            · exact hp
            · exact hp
          split
          · exact hre
          · exact hre
  | bitcast dstN srcN =>
    show CalleesInReach (applyInst env s (.bitcast dstN srcN)).1
    unfold applyInst
    dsimp only
    split
    · exact hQ
    next rs _ => exact hQ
  | phi dstN srcNs =>
    show CalleesInReach (applyInst env s (.phi dstN srcNs)).1
    unfold applyInst
    dsimp only
    refine foldlPreserve _
      (fun (p : AState × Bool) => CalleesInReach p.1) ?_ srcNs (s, false) hQ
    intro p a hp
    dsimp only
    split
    · exact hp
    next rs _ => exact hp
  | sel dstN srcNs =>
    show CalleesInReach (applyInst env s (.sel dstN srcNs)).1
    unfold applyInst
    dsimp only
    refine foldlPreserve _
      (fun (p : AState × Bool) => CalleesInReach p.1) ?_ srcNs (s, false) hQ
    intro p a hp
    dsimp only
    split
    · exact hp
    next rs _ => exact hp

theorem runOnFunction_q (env : Env) (s : AState) (f : FuncData)
    (hQ : CalleesInReach s) : CalleesInReach (runOnFunctionModel env s f).1 := by
  unfold runOnFunctionModel
  refine foldlPreserve _
    (fun (p : AState × Bool) => CalleesInReach p.1) ?_ f.body
    ({ s with unvisited := s.unvisited.erase f.fid }, false) hQ
  intro p i hp
  exact applyInst_q env p.1 i hp

theorem processFuncs_q (env : Env) (s : AState) (hQ : CalleesInReach s) :
    CalleesInReach (processFuncs env s).1 := by
  unfold processFuncs
  refine foldlPreserve _
    (fun (p : AState × Bool) => CalleesInReach p.1) ?_ env.funcs (s, false) hQ
  intro p f hp
  dsimp only
  split
  · exact hp
  · exact runOnFunction_q env p.1 f hp

theorem doModulePass_q (env : Env) (iteration : Nat) (s : AState)
    (hQ : CalleesInReach s) :
    CalleesInReach (doModulePassModel env iteration s).1 := by
  have hsc : CalleesInReach (shortcutCreate env s) := by
    obtain ⟨h1, h2⟩ := shortcutCreate_rc env s
    exact q_transport (h1 ▸ Finset.Subset.refl _) (fun c => by rw [h2]) hQ
  unfold doModulePassModel
  dsimp only
  split
  · exact processFuncs_q env (shortcutCreate env s) hsc
  · exact hsc

theorem fixLoop_q (env : Env) :
    ∀ (fuel iteration : Nat) (s : AState), CalleesInReach s →
      CalleesInReach (fixLoopModel env fuel iteration s).2
  | 0, _, _, hQ => hQ
  | fuel + 1, iteration, s, hQ => by
    unfold fixLoopModel
    dsimp only
    split
    · exact fixLoop_q env fuel (iteration + 1) (doModulePassModel env iteration s).1
        (doModulePass_q env iteration s hQ)
    · exact doModulePass_q env iteration s hQ

theorem initSeed_self (s : AState) (f : FuncData)
    (hseed : entrySeedName f.name = true) :
    f.fid ∈ (initSeed s f).reachable := by
  unfold initSeed
  rw [if_pos hseed]
  exact Finset.mem_insert_self _ _

theorem initFunc_rc_sub (env : Env) (s : AState) (f : FuncData) :
    (initFunc env s f).callees = s.callees ∧
    s.reachable ⊆ (initFunc env s f).reachable := by
  unfold initFunc
  constructor
  · rw [(initArgStructs_pres _ f).2.2.1, (initRetStructs_pres _ f).2.2.1,
      (initSeed_pres _ f).2.2.1, (initAddrTaken_pres _ f).2.2.1,
      (initCallers_pres env s f).2.1]
  · rw [(initArgStructs_pres _ f).2.2.2, (initRetStructs_pres _ f).2.2.2]
    refine Finset.Subset.trans ?_ (initSeed_pres _ f).2.2.2
    rw [(initAddrTaken_pres _ f).2.2.2, (initCallers_pres env s f).2.2]

theorem initFunc_reach_self (env : Env) (s : AState) (f : FuncData)
    (hseed : entrySeedName f.name = true) :
    f.fid ∈ (initFunc env s f).reachable := by
  unfold initFunc
  rw [(initArgStructs_pres _ f).2.2.2, (initRetStructs_pres _ f).2.2.2]
  exact initSeed_self _ f hseed

theorem doInit_q (env : Env) (s : AState) (hQ : CalleesInReach s) :
    CalleesInReach (doInitModel env s).1 := by
  unfold doInitModel
  dsimp only
  have hg : CalleesInReach (env.globalStructIds.foldl (fun s2 st =>
      { s2 with globalStructs := insert st s2.globalStructs }) s) := by
    refine foldlPreserve _ CalleesInReach ?_ env.globalStructIds s hQ
    intro u a hu
    exact hu
  refine foldlPreserve (initFunc env) CalleesInReach ?_ env.funcs _ hg
  intro u f hu
  obtain ⟨hc, hr⟩ := initFunc_rc_sub env u f
  exact q_transport hr (fun c => by rw [hc]) hu

theorem doInit_reach_sub (env : Env) (s : AState) :
    s.reachable ⊆ (doInitModel env s).1.reachable := by
  unfold doInitModel
  dsimp only
  have hg : s.reachable ⊆ (env.globalStructIds.foldl (fun s2 st =>
      { s2 with globalStructs := insert st s2.globalStructs }) s).reachable := by
    refine foldlPreserve _ (fun u => s.reachable ⊆ u.reachable) ?_
      env.globalStructIds s (Finset.Subset.refl _)
    intro u a hu
    exact hu
  refine foldlPreserve (initFunc env)
    (fun u => s.reachable ⊆ u.reachable) ?_ env.funcs _ hg
  intro u f hu
  exact Finset.Subset.trans hu (initFunc_rc_sub env u f).2

theorem doInit_entries (env : Env) (s : AState) :
    EntriesIn env (doInitModel env s).1 := by
  intro f hm hseed
  unfold doInitModel
  dsimp only
  refine foldlReach (initFunc env) (fun u => f.fid ∈ u.reachable) f ?_ ?_
    env.funcs _ hm
  · intro u a hu
    exact (initFunc_rc_sub env u a).2 hu
  · intro u
    exact initFunc_reach_self env u f hseed

theorem entries_transport (env : Env) {a b : AState}
    (hr : a.reachable ⊆ b.reachable) (hE : EntriesIn env a) :
    EntriesIn env b :=
  fun f hm hseed => hr (hE f hm hseed)

theorem initLoop_q (env : Env) :
    ∀ (fuel iteration : Nat) (s : AState), CalleesInReach s →
      CalleesInReach (initLoopModel env fuel iteration s).2
  | 0, _, _, hQ => hQ
  | fuel + 1, iteration, s, hQ => by
    unfold initLoopModel
    dsimp only
    split
    · exact initLoop_q env fuel (iteration + 1) (doInitModel env s).1
        (doInit_q env s hQ)
    · exact doInit_q env s hQ

theorem emptyState_q (nf : NodeFactory) : CalleesInReach (emptyState nf) := by
  intro g cs hg
  exact absurd hg (Finset.not_mem_empty g)

theorem runModel_q (env : Env) (fI fF fFin : Nat) (nf : NodeFactory) :
    CalleesInReach (runModel env fI fF fFin (emptyState nf)) := by
  unfold runModel
  obtain ⟨h1, h2⟩ := finalLoop_rc env fFin
    (fixLoopModel env fF (initLoopModel env fI 0 (emptyState nf)).1
      (initLoopModel env fI 0 (emptyState nf)).2).2
  refine q_transport (h1 ▸ Finset.Subset.refl _) h2 ?_
  exact fixLoop_q env fF _ _ (initLoop_q env fI 0 _ (emptyState_q nf))

theorem runModel_entries (env : Env) (fI fF fFin : Nat) (nf : NodeFactory) :
    EntriesIn env (runModel env (fI + 1) fF fFin (emptyState nf)) := by
  unfold runModel
  rw [initLoop_one env fI (emptyState nf)]
  dsimp only
  have hE : EntriesIn env (doInitModel env (emptyState nf)).1 :=
    doInit_entries env (emptyState nf)
  refine entries_transport env ?_
    (entries_transport env (fixLoop_reach_sub env fF 1 _) hE)
  obtain ⟨h1, _⟩ := finalLoop_rc env fFin
    (fixLoopModel env fF 1 (doInitModel env (emptyState nf)).1).2
  rw [h1]

theorem r_transport (env : Env) {a b : AState}
    (hrev : b.reachable ⊆ a.reachable)
    (hc : ∀ c, (a.callees c).getD ∅ ⊆ (b.callees c).getD ∅)
    (hR : ReachFromCallees env a) : ReachFromCallees env b := by
  intro g hg
  rcases hR g (hrev hg) with he | ⟨c, hmem⟩
  · exact Or.inl he
  · exact Or.inr ⟨c, hc c hmem⟩

theorem r_of_core (env : Env) {a b : AState} (h : CorePres a b)
    (hR : ReachFromCallees env a) : ReachFromCallees env b :=
  r_transport env (h.1 ▸ Finset.Subset.refl _)
    (fun c => by rw [h.2.2.1]) hR

theorem addReachable_callees (s : AState) (f : Nat) :
    (addReachable s f).callees = s.callees := by
  unfold addReachable
  split
  · rfl
  · rfl

theorem addReachable_reach_cases (s : AState) (f : Nat) :
    ∀ g ∈ (addReachable s f).reachable, g = f ∨ g ∈ s.reachable := by
  intro g hg
  unfold addReachable at hg
  split at hg
  · exact Or.inr hg
  · exact Finset.mem_insert.mp hg

theorem calleesAdd_sub (s : AState) (cs f : Nat) :
    ∀ c, (s.callees c).getD ∅ ⊆ ((calleesAdd s cs f).callees c).getD ∅ := by
  intro c
  unfold calleesAdd
  dsimp only
  by_cases hc : c = cs
  · subst hc
    rw [if_pos rfl]
    exact Finset.subset_insert _ _
  · rw [if_neg hc]

theorem calleesAdd_self (s : AState) (cs f : Nat) :
    f ∈ ((calleesAdd s cs f).callees cs).getD ∅ := by
  unfold calleesAdd
  dsimp only
  rw [if_pos rfl]
  exact Finset.mem_insert_self _ _

theorem callPair_r (env : Env) (s : AState) (cs f : Nat)
    (hR : ReachFromCallees env s) :
    ReachFromCallees env (calleesAdd (addReachable s f) cs f) := by
  intro g hg
  have hg' : g ∈ (addReachable s f).reachable := hg
  rcases addReachable_reach_cases s f g hg' with h | h
  · rw [h]
    exact Or.inr ⟨cs, calleesAdd_self (addReachable s f) cs f⟩
  · rcases hR g h with he | ⟨c, hmem⟩
    · exact Or.inl he
    · refine Or.inr ⟨c, calleesAdd_sub (addReachable s f) cs f c ?_⟩
      rw [addReachable_callees s f]
      exact hmem

theorem indirectStep_r (env : Env) (cs : Nat) (cd : CallData)
    (p : AState × Bool) (idx : Nat) (hR : ReachFromCallees env p.1) :
    ReachFromCallees env (indirectStep env cs cd p idx).1 := by
  unfold indirectStep
  dsimp only
  split
  · exact hR
  split
  · exact hR
  next f _ =>
    exact r_of_core env (handleCall_core (calleesAdd (addReachable p.1 f) cs f)
      cd (env.funcData f)) (callPair_r env p.1 cs f hR)

theorem callModel_r (env : Env) (s : AState) (cs : Nat)
    (hR : ReachFromCallees env s) : ReachFromCallees env (callModel env s cs).1 := by
  unfold callModel
  dsimp only
  split
  · exact hR
  split
  next cf _ =>
    exact r_of_core env (handleCall_core
      (calleesAdd (addReachable s (env.funcDef cf)) cs (env.funcDef cf))
      (env.csData cs) (env.funcData (env.funcDef cf)))
      (callPair_r env s cs (env.funcDef cf) hR)
  next _ =>
    split
    next rs _ =>
      have hfold : ReachFromCallees env ((ascElems rs).foldl
          (indirectStep env cs (env.csData cs)) (s, false)).1 :=
        foldlPreserve (indirectStep env cs (env.csData cs))
          (fun p => ReachFromCallees env p.1)
          (fun p a hp => indirectStep_r env cs (env.csData cs) p a hp)
          (ascElems rs) (s, false) hR
      split
      · exact hfold
      · exact hfold
    next _ =>
      split
      · exact hR
      · exact hR

theorem loadModel_r (env : Env) (s : AState) (valN ptrN : Nat)
    (pointeeSt : Option Nat) (hR : ReachFromCallees env s) :
    ReachFromCallees env (loadModel s valN ptrN pointeeSt).1 := by
  unfold loadModel
  dsimp only
  split
  · exact hR
  have hsc : ReachFromCallees env (loadShortcut s valN pointeeSt).1 := by
    cases pointeeSt with
    | none => exact hR
    | some st =>
      show ReachFromCallees env (loadShortcut s valN (some st)).1
      unfold loadShortcut
      dsimp only
      cases (s.typeShortcuts.filter (fun q => q.1 = st)).head? with
      | none => exact hR
      | some q => exact hR
  split
  · exact hsc
  next ps _ =>
    refine foldlPreserve (loadStep valN ps)
      (fun p => ReachFromCallees env p.1) ?_ (ascElems ps) _ hsc
    intro p a hp
    unfold loadStep
    split
    · exact hp
    split
    · exact hp
    · split
      · exact hp
      · exact hp

theorem applyInst_r (env : Env) (s : AState) (i : Inst)
    (hR : ReachFromCallees env s) : ReachFromCallees env (applyInst env s i).1 := by
  cases i with
  | skipped => exact hR
  | alloca => exact hR
  | unhandled => exact hR
  | ret rv retN =>
    cases rv with
    | none => exact hR
    | some rvN =>
      show ReachFromCallees env (applyInst env s (.ret (some rvN) retN)).1
      unfold applyInst
      dsimp only
      split
      · exact hR
      · split
        · exact hR
        next rs _ => exact hR
  | callSite cs => exact callModel_r env s cs hR
  | load valN ptrN pointeeSt => exact loadModel_r env s valN ptrN pointeeSt hR
  | store valIsPtr valN ptrN =>
    show ReachFromCallees env (applyInst env s (.store valIsPtr valN ptrN)).1
    unfold applyInst
    dsimp only
    split
    · exact hR
    · split
      · exact hR
      next vs _ =>
        split
        · exact hR
        next ps _ =>
          refine foldlPreserve (storeStep vs)
            (fun p => ReachFromCallees env p.1) ?_ (ascElems ps) (s, false) hR
          intro p a hp
          unfold storeStep
          split
          · exact hp
          · exact hp
  | gep valN ptrN srcSt off fieldNum =>
    show ReachFromCallees env (applyInst env s (.gep valN ptrN srcSt off fieldNum)).1
    unfold applyInst
    dsimp only
    split
    · exact hR
    next ps _ =>
      refine foldlPreserve (gepStep env valN srcSt (decide (off < 0)) fieldNum)
        (fun p => ReachFromCallees env p.1) ?_ (ascElems ps) (s, false, false) hR
      intro p a hp
      unfold gepStep
      dsimp only
      split
      · exact hp
      split
      · exact hp
      · split
        · exact hp
        · have hre : ReachFromCallees env (gepResize env srcSt p.1 a
              (p.1.nf.objSize a)) := by
            unfold gepResize
            split
            · exact hp
            · exact hp
          split
          · exact hre
          · exact hre
  | bitcast dstN srcN =>
    show ReachFromCallees env (applyInst env s (.bitcast dstN srcN)).1
    unfold applyInst
    dsimp only
    split
    · exact hR
    next rs _ => exact hR
  | phi dstN srcNs =>
    show ReachFromCallees env (applyInst env s (.phi dstN srcNs)).1
    unfold applyInst
    dsimp only
    refine foldlPreserve _
      (fun (p : AState × Bool) => ReachFromCallees env p.1) ?_ srcNs (s, false) hR
    intro p a hp
    dsimp only
    split
    · exact hp
    next rs _ => exact hp
  | sel dstN srcNs =>
    show ReachFromCallees env (applyInst env s (.sel dstN srcNs)).1
    unfold applyInst
    dsimp only
    refine foldlPreserve _
      (fun (p : AState × Bool) => ReachFromCallees env p.1) ?_ srcNs (s, false) hR
    intro p a hp
    dsimp only
    split
    · exact hp
    next rs _ => exact hp

theorem runOnFunction_r (env : Env) (s : AState) (f : FuncData)
    (hR : ReachFromCallees env s) :
    ReachFromCallees env (runOnFunctionModel env s f).1 := by
  unfold runOnFunctionModel
  refine foldlPreserve _
    (fun (p : AState × Bool) => ReachFromCallees env p.1) ?_ f.body
    ({ s with unvisited := s.unvisited.erase f.fid }, false) hR
  intro p i hp
  exact applyInst_r env p.1 i hp

theorem processFuncs_r (env : Env) (s : AState) (hR : ReachFromCallees env s) :
    ReachFromCallees env (processFuncs env s).1 := by
  unfold processFuncs
  refine foldlPreserve _
    (fun (p : AState × Bool) => ReachFromCallees env p.1) ?_ env.funcs
    (s, false) hR
  intro p f hp
  dsimp only
  split
  · exact hp
  · exact runOnFunction_r env p.1 f hp

theorem doModulePass_r (env : Env) (iteration : Nat) (s : AState)
    (hR : ReachFromCallees env s) :
    ReachFromCallees env (doModulePassModel env iteration s).1 := by
  have hsc : ReachFromCallees env (shortcutCreate env s) := by
    obtain ⟨h1, h2⟩ := shortcutCreate_rc env s
    exact r_transport env (h1 ▸ Finset.Subset.refl _) (fun c => by rw [h2]) hR
  unfold doModulePassModel
  dsimp only
  split
  · exact processFuncs_r env (shortcutCreate env s) hsc
  · exact hsc

theorem fixLoop_r (env : Env) :
    ∀ (fuel iteration : Nat) (s : AState), ReachFromCallees env s →
      ReachFromCallees env (fixLoopModel env fuel iteration s).2
  | 0, _, _, hR => hR
  | fuel + 1, iteration, s, hR => by
    unfold fixLoopModel
    dsimp only
    split
    · exact fixLoop_r env fuel (iteration + 1)
        (doModulePassModel env iteration s).1 (doModulePass_r env iteration s hR)
    · exact doModulePass_r env iteration s hR

theorem initFunc_r (env : Env) (s : AState) (f : FuncData)
    (hf : f ∈ env.funcs) (hR : ReachFromCallees env s) :
    ReachFromCallees env (initFunc env s f) := by
  intro g hg
  have hcal : (initFunc env s f).callees = s.callees := (initFunc_rc_sub env s f).1
  rw [hcal]
  show entryFid env g ∨ ∃ cs, g ∈ (s.callees cs).getD ∅
  unfold initFunc at hg
  rw [(initArgStructs_pres _ f).2.2.2, (initRetStructs_pres _ f).2.2.2] at hg
  have hinner : ∀ h : g ∈ (initAddrTaken (initCallers env s f) f).reachable,
      entryFid env g ∨ ∃ cs, g ∈ (s.callees cs).getD ∅ := by
    intro h
    rw [(initAddrTaken_pres _ f).2.2.2, (initCallers_pres env s f).2.2] at h
    exact hR g h
  unfold initSeed at hg
  split at hg
  next hseed =>
    rcases Finset.mem_insert.mp hg with h | h
    · exact Or.inl ⟨f, hf, hseed, h.symm⟩
    · exact hinner h
  · exact hinner hg

theorem doInit_r (env : Env) (s : AState) (hR : ReachFromCallees env s) :
    ReachFromCallees env (doInitModel env s).1 := by
  unfold doInitModel
  dsimp only
  have hg : ReachFromCallees env (env.globalStructIds.foldl (fun s2 st =>
      { s2 with globalStructs := insert st s2.globalStructs }) s) := by
    refine foldlPreserve _ (ReachFromCallees env) ?_ env.globalStructIds s hR
    intro u a hu
    exact hu
  refine foldlPreserveMem (initFunc env) (ReachFromCallees env) env.funcs ?_ _ hg
  intro f hf u hu
  exact initFunc_r env u f hf hu

theorem initLoop_r (env : Env) :
    ∀ (fuel iteration : Nat) (s : AState), ReachFromCallees env s →
      ReachFromCallees env (initLoopModel env fuel iteration s).2
  | 0, _, _, hR => hR
  | fuel + 1, iteration, s, hR => by
    unfold initLoopModel
    dsimp only
    split
    · exact initLoop_r env fuel (iteration + 1) (doInitModel env s).1
        (doInit_r env s hR)
    · exact doInit_r env s hR

theorem emptyState_r (env : Env) (nf : NodeFactory) :
    ReachFromCallees env (emptyState nf) := by
  intro g hg
  exact absurd hg (Finset.not_mem_empty g)

theorem runModel_r (env : Env) (fI fF fFin : Nat) (nf : NodeFactory) :
    ReachFromCallees env (runModel env fI fF fFin (emptyState nf)) := by
  unfold runModel
  obtain ⟨h1, h2⟩ := finalLoop_rc env fFin
    (fixLoopModel env fF (initLoopModel env fI 0 (emptyState nf)).1
      (initLoopModel env fI 0 (emptyState nf)).2).2
  refine r_transport env ?_ (fun c => by rw [h2 c])
    (fixLoop_r env fF (initLoopModel env fI 0 (emptyState nf)).1
      (initLoopModel env fI 0 (emptyState nf)).2
      (initLoop_r env fI 0 (emptyState nf) (emptyState_r env nf)))
  rw [h1]

theorem specReachable_env1_inv (cal : Nat → Finset Nat) :
    ∀ x, SpecReachable env1 cal x → x = 0 := by
  intro x h
  induction h with
  | entry f hf hseed =>
    have hf' : f = mainF1 ∨ f = helperF1 ∨ f = targetF1 := by
      simp only [env1] at hf
      simpa using hf
    rcases hf' with hf' | hf' | hf'
    · rw [hf']
      rfl
    · rw [hf'] at hseed
      exact absurd hseed (by decide)
    · rw [hf'] at hseed
      exact absurd hseed (by decide)
  | step f cs g _ hf hcs _ ih =>
    have hf' : f = mainF1 ∨ f = helperF1 ∨ f = targetF1 := by
      simp only [env1] at hf
      simpa using hf
    rcases hf' with hf' | hf' | hf'
    · rw [hf'] at hcs
      exact absurd hcs (by simp [mainF1])
    · rw [hf'] at ih
      exact absurd ih (by decide)
    · rw [hf'] at ih
      exact absurd ih (by decide)

/-- C1: the claim that the computed reachable set equals the least
fixpoint of Reachable = Entries + callees of call sites in reachable
functions fails on the source, because the reachability guard of the
function-processing sweep is commented out (CallGraph.cc 872-881): in a
module where main (the only entry) calls nothing and an unreachable
function helper directly calls target, the analysis still processes
helper's call and puts target (function id 2) into the reachable set,
while the least fixpoint over the final Callees map contains only main
(function id 0). -/
theorem spec_c1_reachable_fixpoint_counterexample :
    2 ∈ (runModel env1 1 3 1 (emptyState nfNop)).reachable ∧
    ¬ SpecReachable env1
        (fun cs => ((runModel env1 1 3 1 (emptyState nfNop)).callees cs).getD ∅)
        2 := by
  constructor
  · decide
  · intro h
    have h0 := specReachable_env1_inv
      (fun cs => ((runModel env1 1 3 1 (emptyState nfNop)).callees cs).getD ∅)
      2 h
    exact absurd h0 (by decide)

/-- C1 (amended): over a full run of the pass from the empty state with at
least one initialization round, the computed reachable set contains the
least fixpoint of the claim (every function derivable by
SpecReachable under the final Callees map is reachable), and it satisfies
the fixpoint equation only in the amended form: a function is reachable
exactly when it is an entry seed or a recorded callee of some call site —
with no requirement that the call site lie in a reachable function, since
the reachability guard of the sweep is commented out. -/
theorem spec_c1_reachable_fixpoint_amended :
    ∀ (env : Env) (nf : NodeFactory) (fI fF fFin : Nat) (x g : Nat),
      (SpecReachable env
          (fun cs =>
            ((runModel env (fI + 1) fF fFin (emptyState nf)).callees cs).getD ∅)
          x →
        x ∈ (runModel env (fI + 1) fF fFin (emptyState nf)).reachable) ∧
      (g ∈ (runModel env (fI + 1) fF fFin (emptyState nf)).reachable ↔
        entryFid env g ∨ ∃ cs,
          g ∈ ((runModel env (fI + 1) fF fFin (emptyState nf)).callees cs).getD ∅) := by
  intro env nf fI fF fFin x g
  constructor
  · intro h
    induction h with
    | entry f hf hseed => exact runModel_entries env fI fF fFin nf f hf hseed
    | step f cs g2 _ _ _ hg _ =>
      exact runModel_q env (fI + 1) fF fFin nf g2 cs hg
  · constructor
    · intro hg
      exact runModel_r env (fI + 1) fF fFin nf g hg
    · intro hg
      rcases hg with ⟨f, hf, hseed, hfid⟩ | ⟨cs, hcs⟩
      · exact hfid ▸ runModel_entries env fI fF fFin nf f hf hseed
      · exact runModel_q env (fI + 1) fF fFin nf g cs hcs

theorem spec_c1_reachable_fixpoint_amended_witness :
    0 ∈ (runModel env1 1 3 1 (emptyState nfNop)).reachable ∧
    (0 ∈ (runModel env1 1 3 1 (emptyState nfNop)).reachable ↔
      entryFid env1 0 ∨ ∃ cs,
        0 ∈ ((runModel env1 1 3 1 (emptyState nfNop)).callees cs).getD ∅) :=
  ⟨(spec_c1_reachable_fixpoint_amended env1 nfNop 0 3 1 0 0).1
      (SpecReachable.entry mainF1 (List.mem_cons_self mainF1 [helperF1, targetF1])
        (by decide)),
   (spec_c1_reachable_fixpoint_amended env1 nfNop 0 3 1 0 0).2⟩
